import Mathlib

/-!
# flexcall: calling a function with arguments chosen by type

A shallow embedding of `flexcall.go` (package `flexcall`) and of the part of
Go's `reflect` package it relies on, followed by theorems about `Call`,
`CallOptional`, `ExtractError` and their compositions.

Conventions of the embedding:

* an `interface{}` value is `Any`: `none` is the nil interface, `some v` a
  value with its dynamic type;
* a `[]interface{}` result is `Slice`: `none` is the nil slice;
* a `reflect.Value` is `RValue`; `RValue.invalid` is the zero `reflect.Value`;
* a run-time panic is an outcome of its own (`Run.panic`), never an error value;
* the target function is a state transformer over an arbitrary state `σ`, so
  that "the function was not invoked" is "the state did not change";
* a `Func` is a non-nil function value; the nil value of a function type is
  `Target.nilFunc`;
* a variadic function type carries the element type of its final parameter
  (`FuncType.variadic`), and `reflectCall` packs the trailing arguments as
  `reflect.Value.Call` does; the function then receives the packed elements at
  the end of its argument list.
-/

namespace Flexcall

/-! ## Types and values -/

/-- The `reflect.Kind` of a type. -/
inductive Kind
  | Bool
  | Int
  | Float64
  | String
  | Ptr
  | Slice
  | Struct
  | Func
  | Interface
  deriving DecidableEq, Repr

/-- A Go type as `reflect.Type` exposes it to the package: what `String()`
prints, its `Kind()`, and its method set (each method written with its
signature). Two types are identical (`==` on `reflect.Type`) when all three
agree. -/
structure GoType where
  name : String
  kind : Kind
  methods : List String
  deriving DecidableEq, Repr

/-- `t.Implements(u)` for an interface type `u`: the method set of `t`
contains every method of `u`. -/
def GoType.Implements (t u : GoType) : Bool :=
  u.methods.all (fun m => decide (m ∈ t.methods))

/-- The data carried by a value of a concrete type. -/
inductive Data
  | bool (b : Bool)
  | int (n : Int)
  | str (s : String)
  | nilRef
  | ref (addr : Nat)
  | raw (code : Nat)
  deriving DecidableEq, Repr

/-- The zero value of a type of the given kind: `false`, `0`, `""`, the nil
pointer / slice / func, the all-zero struct. -/
def zeroData : Kind → Data
  | .Bool => .bool false
  | .Int => .int 0
  | .Float64 => .raw 0
  | .String => .str ""
  | .Ptr => .nilRef
  | .Slice => .nilRef
  | .Struct => .raw 0
  | .Func => .nilRef
  | .Interface => .nilRef

/-- A value together with its dynamic type. -/
structure Value where
  typ : GoType
  data : Data
  deriving DecidableEq, Repr

/-- An `interface{}`: `none` is nil. -/
abbrev Any := Option Value

/-- A `[]interface{}` as a result: `none` is the nil slice. -/
abbrev Slice := Option (List Any)

/-- The builtin `len` on a `[]interface{}`. -/
def Slice.len : Slice → Nat
  | none => 0
  | some xs => xs.length

/-- A `reflect.Value`: the zero Value, a value of a concrete type, or a value
of an interface type `t` holding `elem`. -/
inductive RValue
  | invalid
  | concrete (v : Value)
  | iface (t : GoType) (elem : Any)
  deriving DecidableEq, Repr

/-- The places where the code, or the reflect calls it makes, can panic. -/
inductive Panic
  /-- a method called on the nil `reflect.Type` that `reflect.TypeOf(nil)` returns -/
  | nilTypeDereference
  /-- `reflect: call of reflect.Value.Type on zero Value` -/
  | typeOfZeroValue
  /-- `reflect: call of reflect.Value.Interface on zero Value` -/
  | interfaceOfZeroValue
  /-- `reflect: Call with too few / too many input arguments` -/
  | callArgumentCount
  /-- `reflect: Call using zero Value argument` -/
  | callZeroValueArgument
  /-- `reflect: Call using T as type U` -/
  | callNotAssignable
  /-- `reflect: NumOut of non-func type` -/
  | numOutOfNonFunc
  /-- `given values len not correspond with function return values len` -/
  | lenMismatch
  /-- a failed type assertion `l.(error)` -/
  | typeAssertion
  /-- an index or a slice bound out of range -/
  | indexOutOfRange
  /-- `reflect.Value.Call: call of nil function` -/
  | callNilFunction
  /-- `reflect: cannot use T as type E in Call`, for an argument packed into the
  slice of a variadic parameter -/
  | callVariadicNotAssignable
  deriving DecidableEq, Repr

/-- The outcome of running Go code: it returns, or it panics. -/
inductive Run (α : Type)
  | ret (a : α)
  | panic (p : Panic)
  deriving DecidableEq, Repr

/-- An `error` value returned by the package. -/
inductive GoError
  /-- `fmt.Errorf("not a func")` -/
  | notAFunc
  /-- `fmt.Errorf("%w: arg %d of type %q", ErrUnmatched, i, at.String())` -/
  | unmatched (i : Nat) (typ : String)
  /-- a result value asserted to `error` -/
  | ofValue (v : Value)
  deriving DecidableEq, Repr

/-- The test `errors.Is(err, ErrUnmatched)` on the errors that `call` itself
constructs: only the one built with `%w` over `ErrUnmatched` wraps it. An
extracted result value is outside of what this predicate describes. -/
def GoError.wrapsErrUnmatched : GoError → Option Bool
  | .notAFunc => some false
  | .unmatched _ _ => some true
  | .ofValue _ => none

/-- The interface type `error`. -/
def errorType : GoType :=
  ⟨"error", .Interface, ["Error() string"]⟩

/-! ## reflect -/

/-- `reflect.ValueOf(a)`. -/
def reflectValueOf : Any → RValue
  | none => .invalid
  | some v => .concrete v

/-- `reflect.Zero(t)`. -/
def reflectZero (t : GoType) : RValue :=
  if t.kind = .Interface then .iface t none else .concrete ⟨t, zeroData t.kind⟩

/-- `v.Type()`: panics on the zero Value. -/
def RValue.Type : RValue → Run GoType
  | .invalid => .panic .typeOfZeroValue
  | .concrete v => .ret v.typ
  | .iface t _ => .ret t

/-- `v.Interface()`: the value as an `interface{}`; for a Value of interface
kind, the element inside. Panics on the zero Value. -/
def RValue.Interface : RValue → Run Any
  | .invalid => .panic .interfaceOfZeroValue
  | .concrete v => .ret (some v)
  | .iface _ e => .ret e

/-- The dynamic content of a valid Value. -/
def RValue.elem : RValue → Any
  | .invalid => none
  | .concrete v => some v
  | .iface _ e => e

/-- Whether `x` is a Value of static type `t` as Go's typing guarantees it for
a parameter or result declared with type `t`. -/
def RValue.hasType : RValue → GoType → Bool
  | .invalid, _ => false
  | .concrete v, t => t.kind != .Interface && v.typ == t
  | .iface u e, t =>
    t.kind == .Interface && u == t &&
      (match e with
       | none => true
       | some v => v.typ.Implements t)

/-- Pointwise `hasType`, for lists of the same length. -/
def hasTypes : List RValue → List GoType → Bool
  | [], [] => true
  | x :: xs, t :: ts => x.hasType t && hasTypes xs ts
  | _, _ => false

/-- A function type: `In(0..NumIn)`, `Out(0..NumOut)` and `IsVariadic`:
`variadic` is `none` for a function that is not variadic and, for a variadic
one, the element type `In(NumIn-1).Elem()` of its final parameter `...T`
(whose type `In(NumIn-1)` is the slice type `[]T`). -/
structure FuncType where
  ins : List GoType
  outs : List GoType
  variadic : Option GoType
  deriving DecidableEq, Repr

/-- A function value: its type and its body, a transformer of the state `σ`
that receives the arguments and produces the results. `typed` is Go's static
typing of the results. -/
structure Func (σ : Type) where
  typ : FuncType
  body : σ → List RValue → List RValue × σ
  typed : ∀ s args, hasTypes (body s args).1 typ.outs = true

/-- The `f interface{}` handed to the package: nil, a value whose type is not
a function type, a function, or the nil value of a function type (such as
`var f func()`). -/
inductive Target (σ : Type)
  | nil
  | nonFunc (v : Value) (h : v.typ.kind ≠ Kind.Func)
  | func (fn : Func σ)
  | nilFunc (ft : FuncType)

/-- The rules of `xt.AssignableTo(targ)` that bear on argument vectors:
identical types, or `targ` is an interface that `xt` implements. (The rule on
identical underlying types is left out: a `GoType` carries no underlying
type.) -/
def assignable (xt targ : GoType) : Bool :=
  xt == targ || (targ.kind == .Interface && xt.Implements targ)

/-- The check reflect makes on each argument before a call. -/
def assignableAll : List RValue → List GoType → Bool
  | [], [] => true
  | x :: xs, t :: ts =>
    (match x.Type with
     | .ret xt => assignable xt t
     | .panic _ => false) && assignableAll xs ts
  | _, _ => false

/-- The conversion of an argument to the parameter type `targ`. -/
def assignTo (x : RValue) (targ : GoType) : RValue :=
  if targ.kind = .Interface then .iface targ x.elem else x

/-- Pointwise `assignTo`. -/
def assignAll : List RValue → List GoType → List RValue
  | x :: xs, t :: ts => assignTo x t :: assignAll xs ts
  | _, _ => []

/-- The check reflect makes on each argument that goes into the slice of a
variadic parameter with element type `elem`. -/
def variadicAssignable (xs : List RValue) (elem : GoType) : Bool :=
  xs.all (fun x =>
    match x.Type with
    | .ret xt => assignable xt elem
    | .panic _ => false)

/-- `fv.Call(ins)` for a non-nil function value: reflect checks the argument
count, rejects zero Values, checks assignability, and then runs the function.
For a variadic function the first `NumIn - 1` arguments are checked against
their parameters, and every further argument must be assignable to the element
type of the final parameter: reflect packs them into a new slice (it does not
take a slice argument as the final parameter, that is `CallSlice`). -/
def reflectCall {σ : Type} (fn : Func σ) (ins : List RValue) (s : σ) :
    Run (List RValue × σ) :=
  match fn.typ.variadic with
  | none =>
    if ins.length ≠ fn.typ.ins.length then .panic .callArgumentCount
    else if ins.any (fun x => decide (x = .invalid)) then .panic .callZeroValueArgument
    else if assignableAll ins fn.typ.ins = false then .panic .callNotAssignable
    else .ret (fn.body s (assignAll ins fn.typ.ins))
  | some elem =>
    if ins.length < fn.typ.ins.length - 1 then .panic .callArgumentCount
    else if ins.any (fun x => decide (x = .invalid)) then .panic .callZeroValueArgument
    else if assignableAll (ins.take (fn.typ.ins.length - 1))
        (fn.typ.ins.take (fn.typ.ins.length - 1)) = false then .panic .callNotAssignable
    else if variadicAssignable (ins.drop (fn.typ.ins.length - 1)) elem = false then
      .panic .callVariadicNotAssignable
    else
      .ret (fn.body s
        (assignAll (ins.take (fn.typ.ins.length - 1)) (fn.typ.ins.take (fn.typ.ins.length - 1))
          ++ (ins.drop (fn.typ.ins.length - 1)).map (fun x => assignTo x elem)))

/-! ## flexcall.go -/

/-- The outcome of the scan of the candidates for one parameter
(lines 44-57). -/
inductive Scan
  | found (av : RValue)
  | notFound
  | panic (p : Panic)
  deriving DecidableEq, Repr

/-- The inner loop `for _, av := range avs` for the parameter type `pt`. -/
def scan (pt : GoType) : List RValue → Scan
  | [] => .notFound
  | av :: rest =>
    if pt.kind = .Interface then
      match av.Type with
      | .panic p => .panic p
      | .ret t => if t.Implements pt then .found av else scan pt rest
    else
      match av.Type with
      | .panic p => .panic p
      | .ret t => if t = pt then .found av else scan pt rest

/-- The outcome of the loop over the parameters (lines 40-65). -/
inductive Resolution
  | done (ins : List RValue)
  | unmatched (i : Nat) (typ : String)
  | panic (p : Panic)
  deriving DecidableEq, Repr

/-- The loop `for i := 0; i < ft.NumIn(); i++`, from index `i` on, with the
parameter types still to resolve and the vector `ins` built so far. -/
def resolve (allowNils : Bool) (avs : List RValue) :
    List GoType → Nat → List RValue → Resolution
  | [], _, ins => .done ins
  | pt :: rest, i, ins =>
    match scan pt avs with
    | .panic p => .panic p
    | .found av => resolve allowNils avs rest (i + 1) (ins.set i av)
    | .notFound =>
      if allowNils then resolve allowNils avs rest (i + 1) (ins.set i (reflectZero pt))
      else .unmatched i pt.name

/-- The loop `for i, out := range outs  iouts[i] = out.Interface()`. -/
def interfaces : List RValue → Run (List Any)
  | [] => .ret []
  | out :: rest =>
    match out.Interface with
    | .panic p => .panic p
    | .ret a =>
      match interfaces rest with
      | .panic p => .panic p
      | .ret as => .ret (a :: as)

/-- What a call of the package returns: the results, the error, and the state
the target function left. -/
abbrev Returned (σ : Type) := Slice × Option GoError × σ

/-- The function `call`. -/
def call {σ : Type} (allowNils : Bool) (f : Target σ) (args : List Any) (s : σ) :
    Run (Returned σ) :=
  match f with
  -- reflect.TypeOf(nil) is the nil Type, and ft.Kind() dereferences it
  | .nil => .panic .nilTypeDereference
  -- if ft.Kind() != reflect.Func  return nil, fmt.Errorf("not a func")
  | .nonFunc _ _ => .ret (none, some .notAFunc, s)
  | .func fn =>
    -- avs = append(avs, reflect.ValueOf(a)) for each a
    let avs := args.map reflectValueOf
    -- ins := make([]reflect.Value, ft.NumIn())
    let ins := List.replicate fn.typ.ins.length RValue.invalid
    match resolve allowNils avs fn.typ.ins 0 ins with
    | .panic p => .panic p
    -- return nil, fmt.Errorf("%w: arg %d of type %q", ErrUnmatched, i, at.String())
    | .unmatched i t => .ret (none, some (.unmatched i t), s)
    | .done ins =>
      -- outs := fv.Call(ins)
      match reflectCall fn ins s with
      | .panic p => .panic p
      | .ret (outs, s') =>
        -- if len(outs) == 0  return nil, nil
        if outs.length = 0 then .ret (none, none, s')
        else
          match interfaces outs with
          | .panic p => .panic p
          | .ret iouts => .ret (some iouts, none, s')
  | .nilFunc ft =>
    -- ft.Kind() is reflect.Func: the same path, up to fv.Call(ins)
    match resolve allowNils (args.map reflectValueOf) ft.ins 0
        (List.replicate ft.ins.length RValue.invalid) with
    | .panic p => .panic p
    | .unmatched i t => .ret (none, some (.unmatched i t), s)
    -- outs := fv.Call(ins) panics: call of nil function
    | .done _ => .panic .callNilFunction

/-- The function `Call`. -/
def Call {σ : Type} (f : Target σ) (args : List Any) (s : σ) : Run (Returned σ) :=
  call false f args s

/-- The function `CallOptional`. -/
def CallOptional {σ : Type} (f : Target σ) (args : List Any) (s : σ) : Run (Returned σ) :=
  call true f args s

/-- The element `outs[i]`. -/
def Slice.index (outs : Slice) (i : Nat) : Run Any :=
  match outs with
  | none => .panic .indexOutOfRange
  | some xs =>
    match xs[i]? with
    | none => .panic .indexOutOfRange
    | some a => .ret a

/-- The slice `outs[:n]`. -/
def Slice.upTo (outs : Slice) (n : Nat) : Run Slice :=
  match outs with
  | none => if n = 0 then .ret none else .panic .indexOutOfRange
  | some xs => if n ≤ xs.length then .ret (some (xs.take n)) else .panic .indexOutOfRange

/-- The type assertion `l.(error)` on a non-nil `l`. -/
def assertError (v : Value) : Run GoError :=
  if v.typ.Implements errorType then .ret (.ofValue v) else .panic .typeAssertion

/-- The body of `ExtractError` from the length check on (lines 89-109), for
`ft = reflect.TypeOf(f)` a function type. -/
def splitByType (ft : FuncType) (outs : Slice) : Run (Slice × Option GoError) :=
  -- if ft.NumOut() != len(outs)  panic(...)
  if ft.outs.length ≠ outs.len then .panic .lenMismatch
  -- if ft.NumOut() == 0  return nil, nil
  else if ft.outs.length = 0 then .ret (none, none)
  else
    -- lt := ft.Out(ft.NumOut() - 1)
    match ft.outs[ft.outs.length - 1]? with
    | none => .panic .indexOutOfRange
    | some lt =>
      if lt.Implements errorType then
        -- l := outs[len(outs)-1], then outs[:len(outs)-1] and, unless l == nil, l.(error)
        match outs.index (outs.len - 1) with
        | .panic p => .panic p
        | .ret l =>
          match outs.upTo (outs.len - 1) with
          | .panic p => .panic p
          | .ret rest =>
            match l with
            | none => .ret (rest, none)
            | some v =>
              match assertError v with
              | .panic p => .panic p
              | .ret e => .ret (rest, some e)
      else .ret (outs, none)

/-- The function `ExtractError`. It looks at `f` through its type only, so
that the nil value of a function type is as good as a function. -/
def ExtractError {σ : Type} (f : Target σ) (outs : Slice) : Run (Slice × Option GoError) :=
  match f with
  -- ft is the nil Type, and ft.NumOut() dereferences it
  | .nil => .panic .nilTypeDereference
  -- ft.NumOut() on a type that is not a function type
  | .nonFunc _ _ => .panic .numOutOfNonFunc
  | .func fn => splitByType fn.typ outs
  | .nilFunc ft => splitByType ft outs

/-- The sequencing shared by the two composed functions: an error of the
invocation is returned as it is, otherwise the results go through
`ExtractError`. -/
def andExtractError {σ : Type} (f : Target σ) (r : Run (Returned σ)) : Run (Returned σ) :=
  match r with
  | .panic p => .panic p
  | .ret (outs, err, s') =>
    match err with
    | some e => .ret (none, some e, s')
    | none =>
      match ExtractError f outs with
      | .panic p => .panic p
      | .ret (info, e) => .ret (info, e, s')

/-- The function `CallAndExtractError`. -/
def CallAndExtractError {σ : Type} (f : Target σ) (args : List Any) (s : σ) :
    Run (Returned σ) :=
  andExtractError f (Call f args s)

/-- The function `CallOptionalAndExtractError`. -/
def CallOptionalAndExtractError {σ : Type} (f : Target σ) (args : List Any) (s : σ) :
    Run (Returned σ) :=
  andExtractError f (CallOptional f args s)

/-! ## Vocabulary of the statements -/

/-- The test of lines 45-56 on a candidate that carries the value `v`:
`v`'s type implements `pt` when `pt` is an interface type, and is identical to
`pt` otherwise. -/
def matchesParam (pt : GoType) (v : Value) : Bool :=
  if pt.kind = .Interface then v.typ.Implements pt else decide (v.typ = pt)

/-- Whether the candidate `a` of an argument pool matches `pt`; the nil
candidate matches nothing. -/
def candidateMatches (pt : GoType) : Any → Bool
  | none => false
  | some v => matchesParam pt v

/-- The first candidate of the pool, in pool order, that matches `pt`. -/
def firstMatch (pt : GoType) (pool : List Any) : Option Any :=
  pool.find? (candidateMatches pt)

/-- Every declared parameter has at least one matching candidate in the pool. -/
def AllMatched (ps : List GoType) (pool : List Any) : Prop :=
  ∀ pt ∈ ps, ∃ a ∈ pool, candidateMatches pt a = true

/-- The argument vector that binds each parameter to its first matching
candidate and, where there is none, to the zero value of its type. -/
def boundVector (ps : List GoType) (pool : List Any) : List RValue :=
  ps.map (fun pt =>
    match firstMatch pt pool with
    | some a => reflectValueOf a
    | none => reflectZero pt)

/-- The results of a returned call as `[]interface{}`: nil when there are
none, otherwise the values one by one. -/
def resultSlice (outs : List RValue) : Slice :=
  if outs.length = 0 then none else some (outs.map RValue.elem)

/-! ## Examples: types, values and functions -/

/-- The type `int`. -/
def intType : GoType := ⟨"int", .Int, []⟩

/-- The type `string`. -/
def stringType : GoType := ⟨"string", .String, []⟩

/-- The type `float64`. -/
def float64Type : GoType := ⟨"float64", .Float64, []⟩

/-- The type `*int`. -/
def intPtrType : GoType := ⟨"*int", .Ptr, []⟩

/-- The type `*errors.errorString`, what `errors.New` returns. -/
def errorStringType : GoType := ⟨"*errors.errorString", .Ptr, ["Error() string"]⟩

/-- An interface type with two methods, like `context.Context`. -/
def contextType : GoType :=
  ⟨"context.Context", .Interface, ["Done() <-chan struct{}", "Err() error"]⟩

/-- A concrete type implementing `contextType`. -/
def emptyCtxType : GoType :=
  ⟨"context.backgroundCtx", .Struct, ["Done() <-chan struct{}", "Err() error", "String() string"]⟩

/-- The `int` value `n`. -/
def intVal (n : Int) : Value := ⟨intType, .int n⟩

/-- The `string` value `s`. -/
def strVal (s : String) : Value := ⟨stringType, .str s⟩

/-- The error `errors.New(msg)`. -/
def errVal (msg : String) : Value := ⟨errorStringType, .str msg⟩

/-- The data of argument `i`, or `d` when the argument is not a concrete value. -/
def argData (args : List RValue) (i : Nat) (d : Data) : Data :=
  match args[i]? with
  | some (.concrete v) => v.data
  | _ => d

/-- The function `func(int) {}`; the state counts its invocations. -/
def fnInt : Func Nat where
  typ := ⟨[intType], [], none⟩
  body := fun s _ => ([], s + 1)
  typed := fun _ _ => rfl

/-- The function `func(x int) (int, error) { return x, nil }`. -/
def fnIntId : Func Nat where
  typ := ⟨[intType], [intType, errorType], none⟩
  body := fun s args => ([.concrete ⟨intType, argData args 0 (.int 0)⟩, .iface errorType none], s + 1)
  typed := fun _ _ => rfl

/-- The function `func(int, string, float64) {}`. -/
def fnThree : Func Nat where
  typ := ⟨[intType, stringType, float64Type], [], none⟩
  body := fun s _ => ([], s + 1)
  typed := fun _ _ => rfl

/-- The function `func() (int, int) { return 1, 2 }`. -/
def fnTwoOut : Func Nat where
  typ := ⟨[], [intType, intType], none⟩
  body := fun s _ => ([.concrete (intVal 1), .concrete (intVal 2)], s + 1)
  typed := fun _ _ => rfl

/-- The function `func() error { return nil }`. -/
def fnErr : Func Nat where
  typ := ⟨[], [errorType], none⟩
  body := fun s _ => ([.iface errorType none], s + 1)
  typed := fun _ _ => rfl

/-- The function `func() (int, error) { return 1, nil }`. -/
def fnIntErr : Func Nat where
  typ := ⟨[], [intType, errorType], none⟩
  body := fun s _ => ([.concrete (intVal 1), .iface errorType none], s + 1)
  typed := fun _ _ => rfl

/-- The function `func() (error, error) { return nil, nil }`. -/
def fnErrErr : Func Nat where
  typ := ⟨[], [errorType, errorType], none⟩
  body := fun s _ => ([.iface errorType none, .iface errorType none], s + 1)
  typed := fun _ _ => rfl

/-- The element of argument `i` when it implements the interface type `t`,
nil otherwise. -/
def argElem (args : List RValue) (i : Nat) (t : GoType) : Any :=
  match args[i]? with
  | some x =>
    match x.elem with
    | some v => if v.typ.Implements t then some v else none
    | none => none
  | none => none

/-- The integer in the data `d`, or 0. -/
def Data.toInt : Data → Int
  | .int n => n
  | _ => 0

/-- The string in the data `d`, or the empty string. -/
def Data.toStr : Data → String
  | .str s => s
  | _ => ""

/-- The function `func() {}`. -/
def fnEmpty : Func Nat where
  typ := ⟨[], [], none⟩
  body := fun s _ => ([], s + 1)
  typed := fun _ _ => rfl

/-- The function `func(int) error { return nil }`. -/
def fnIntRetErr : Func Nat where
  typ := ⟨[intType], [errorType], none⟩
  body := fun s _ => ([.iface errorType none], s + 1)
  typed := fun _ _ => rfl

/-- The function `func(x *int) (*int, error) { return x, nil }`. -/
def fnPtrId : Func Nat where
  typ := ⟨[intPtrType], [intPtrType, errorType], none⟩
  body := fun s args =>
    ([.concrete ⟨intPtrType, argData args 0 .nilRef⟩, .iface errorType none], s + 1)
  typed := fun _ _ => rfl

/-- The function
`func(c context.Context) (context.Context, error) { return c, nil }`. -/
def fnCtxId : Func Nat where
  typ := ⟨[contextType], [contextType, errorType], none⟩
  body := fun s args =>
    ([.iface contextType (argElem args 0 contextType), .iface errorType none], s + 1)
  typed := by
    intro s args
    have h : ∀ v, argElem args 0 contextType = some v →
        v.typ.Implements contextType = true := by
      intro v hv
      unfold argElem at hv
      split at hv
      · split at hv
        · split at hv
          · rename_i hi
            simp only [Option.some.injEq] at hv
            rw [← hv]
            exact hi
          · simp at hv
        · simp at hv
      · simp at hv
    simp only [hasTypes, RValue.hasType]
    cases he : argElem args 0 contextType with
    | none => decide
    | some v =>
      simp only [h v he]
      decide

/-- The function `func(context.Context) {}`. -/
def fnCtx : Func Nat where
  typ := ⟨[contextType], [], none⟩
  body := fun s _ => ([], s + 1)
  typed := fun _ _ => rfl

/-- The function
`func(a string, b int) (int, string) { return b + 1, a + "1" }`. -/
def fnMulti : Func Nat where
  typ := ⟨[stringType, intType], [intType, stringType], none⟩
  body := fun s args =>
    ([.concrete (intVal ((argData args 1 (.int 0)).toInt + 1)),
      .concrete (strVal ((argData args 0 (.str "")).toStr ++ "1"))], s + 1)
  typed := fun _ _ => rfl

/-- The function `func(a, b int) {}`. -/
def fnTwoInts : Func Nat where
  typ := ⟨[intType, intType], [], none⟩
  body := fun s _ => ([], s + 1)
  typed := fun _ _ => rfl

/-- The function `func() (int, string, error) { return 1, "", nil }`. -/
def fnIntStrErr : Func Nat where
  typ := ⟨[], [intType, stringType, errorType], none⟩
  body := fun s _ =>
    ([.concrete (intVal 1), .concrete (strVal ""), .iface errorType none], s + 1)
  typed := fun _ _ => rfl

/-- The function `func() (int, string) { return 1, "" }`. -/
def fnIntStr : Func Nat where
  typ := ⟨[], [intType, stringType], none⟩
  body := fun s _ => ([.concrete (intVal 1), .concrete (strVal "")], s + 1)
  typed := fun _ _ => rfl

/-- The function `func() (error, string) { return nil, "" }`. -/
def fnErrStr : Func Nat where
  typ := ⟨[], [errorType, stringType], none⟩
  body := fun s _ => ([.iface errorType none, .concrete (strVal "")], s + 1)
  typed := fun _ _ => rfl

/-- The function `func() (string, error, error) { return "", nil, nil }`. -/
def fnStrErrErr : Func Nat where
  typ := ⟨[], [stringType, errorType, errorType], none⟩
  body := fun s _ =>
    ([.concrete (strVal ""), .iface errorType none, .iface errorType none], s + 1)
  typed := fun _ _ => rfl

/-- The value `context.Background()`. -/
def backgroundCtx : Value := ⟨emptyCtxType, .raw 0⟩

/-- The interface type `fmt.Stringer`. -/
def stringerType : GoType := ⟨"fmt.Stringer", .Interface, ["String() string"]⟩

/-- The function `func(a, b int) (int, int) { return a, b }`. -/
def fnPair : Func Nat where
  typ := ⟨[intType, intType], [intType, intType], none⟩
  body := fun s args =>
    ([.concrete ⟨intType, argData args 0 (.int 0)⟩,
      .concrete ⟨intType, argData args 1 (.int 0)⟩], s + 1)
  typed := fun _ _ => rfl

/-- The function `func(c context.Context, s fmt.Stringer) {}`. -/
def fnCtxStringer : Func Nat where
  typ := ⟨[contextType, stringerType], [], none⟩
  body := fun s _ => ([], s + 1)
  typed := fun _ _ => rfl

/-- The function `func() error { return errors.New("boom") }`. -/
def fnFail : Func Nat where
  typ := ⟨[], [errorType], none⟩
  body := fun s _ => ([.iface errorType (some (errVal "boom"))], s + 1)
  typed := fun _ _ => rfl

/-- The type `[]int`. -/
def intSliceType : GoType := ⟨"[]int", .Slice, []⟩

/-- The type `interface {}`. -/
def anyType : GoType := ⟨"interface {}", .Interface, []⟩

/-- The type `[]interface {}`. -/
def anySliceType : GoType := ⟨"[]interface {}", .Slice, []⟩

/-- The variadic function `func(xs ...int) {}`. -/
def fnVariadicInts : Func Nat where
  typ := ⟨[intSliceType], [], some intType⟩
  body := fun s _ => ([], s + 1)
  typed := fun _ _ => rfl

/-- The variadic function `func(xs ...interface{}) {}`. -/
def fnVariadicAny : Func Nat where
  typ := ⟨[anySliceType], [], some anyType⟩
  body := fun s _ => ([], s + 1)
  typed := fun _ _ => rfl

/-! ## The match test in the words of the specification -/

/-- The match test as the specification words it (4.1, step 2a): `pt` is an
interface type and the candidate's runtime type `t` implements it, OR `t` is
identical to `pt`. -/
def specMatches (pt t : GoType) : Bool :=
  (decide (pt.kind = .Interface) && t.Implements pt) || decide (t = pt)

/-- The scan of the candidates with the specification's test. -/
def specScan (pt : GoType) : List RValue → Scan
  | [] => .notFound
  | av :: rest =>
    match av.Type with
    | .panic p => .panic p
    | .ret t => if specMatches pt t then .found av else specScan pt rest

/-- The loop over the parameters with the specification's test. -/
def specResolve (allowNils : Bool) (avs : List RValue) :
    List GoType → Nat → List RValue → Resolution
  | [], _, ins => .done ins
  | pt :: rest, i, ins =>
    match specScan pt avs with
    | .panic p => .panic p
    | .found av => specResolve allowNils avs rest (i + 1) (ins.set i av)
    | .notFound =>
      if allowNils then specResolve allowNils avs rest (i + 1) (ins.set i (reflectZero pt))
      else .unmatched i pt.name

/-- The outcome of the call once `ExtractError` has run on its results and
its state is `s`. -/
def withState {σ : Type} (r : Run (Slice × Option GoError)) (s : σ) : Run (Returned σ) :=
  match r with
  | .panic p => .panic p
  | .ret (info, e) => .ret (info, e, s)

/-! ## The embedding on the cases of the package's tests -/

/-- The cases of `TestCall` (all but the floating-point one): strict outcome
and lenient outcome. -/
theorem TestCall_cases :
    -- empty
    Call (.func fnEmpty) [] 0 = .ret (none, none, 1) ∧
    CallOptional (.func fnEmpty) [] 0 = .ret (none, none, 1) ∧
    -- single in
    Call (.func fnInt) [some (intVal 1)] 0 = .ret (none, none, 1) ∧
    -- single in, error out
    Call (.func fnIntRetErr) [some (intVal 1)] 0 = .ret (some [none], none, 1) ∧
    -- not exists, int
    Call (.func fnIntId) [] 0 = .ret (none, some (.unmatched 0 "int"), 0) ∧
    CallOptional (.func fnIntId) [] 0 = .ret (some [some (intVal 0), none], none, 1) ∧
    -- not exists, ptr
    Call (.func fnPtrId) [] 0 = .ret (none, some (.unmatched 0 "*int"), 0) ∧
    CallOptional (.func fnPtrId) [] 0 =
      .ret (some [some ⟨intPtrType, .nilRef⟩, none], none, 1) ∧
    -- not exists, interface
    Call (.func fnCtxId) [] 0 = .ret (none, some (.unmatched 0 "context.Context"), 0) ∧
    CallOptional (.func fnCtxId) [] 0 = .ret (some [none, none], none, 1) ∧
    -- multi in
    Call (.func fnThree) [some (intVal 1), some (strVal "one"), some ⟨float64Type, .raw 1⟩] 0 =
      .ret (none, none, 1) ∧
    -- multi out
    Call (.func fnTwoOut) [] 0 = .ret (some [some (intVal 1), some (intVal 2)], none, 1) ∧
    -- multi in/out
    Call (.func fnMulti) [some (intVal 1), some (strVal "one")] 0 =
      .ret (some [some (intVal 2), some (strVal "one1")], none, 1) ∧
    CallOptional (.func fnMulti) [some (intVal 1), some (strVal "one")] 0 =
      .ret (some [some (intVal 2), some (strVal "one1")], none, 1) ∧
    -- context (interface)
    Call (.func fnCtx) [some backgroundCtx] 0 = .ret (none, none, 1) ∧
    Call (.func fnCtxId) [some backgroundCtx] 0 =
      .ret (some [some backgroundCtx, none], none, 1) := by
  refine ⟨?_, ?_, ?_, ?_, ?_, ?_, ?_, ?_, ?_, ?_, ?_, ?_, ?_, ?_, ?_, ?_⟩ <;> decide

/-- The cases of `TestExtractError`. -/
theorem TestExtractError_cases :
    -- empty
    ExtractError (.func fnEmpty) none = .ret (none, none) ∧
    -- just error
    ExtractError (.func fnErr) (some [some (errVal "err1")]) =
      .ret (some [], some (.ofValue (errVal "err1"))) ∧
    -- just nil error
    ExtractError (.func fnErr) (some [none]) = .ret (some [], none) ∧
    -- multi with error
    ExtractError (.func fnIntStrErr)
        (some [some (intVal 1), some (strVal ""), some (errVal "err1")]) =
      .ret (some [some (intVal 1), some (strVal "")], some (.ofValue (errVal "err1"))) ∧
    -- multi without error
    ExtractError (.func fnIntStr) (some [some (intVal 1), some (strVal "")]) =
      .ret (some [some (intVal 1), some (strVal "")], none) ∧
    -- error not last
    ExtractError (.func fnErrStr) (some [some (errVal "err1"), some (strVal "")]) =
      .ret (some [some (errVal "err1"), some (strVal "")], none) ∧
    -- multi errs
    ExtractError (.func fnErrErr) (some [some (errVal "err1"), some (errVal "err2")]) =
      .ret (some [some (errVal "err1")], some (.ofValue (errVal "err2"))) ∧
    -- multi errs with ins
    ExtractError (.func fnStrErrErr)
        (some [some (strVal ""), some (errVal "err1"), some (errVal "err2")]) =
      .ret (some [some (strVal ""), some (errVal "err1")], some (.ofValue (errVal "err2"))) := by
  refine ⟨?_, ?_, ?_, ?_, ?_, ?_, ?_, ?_⟩ <;> decide

/-! ## Lemmas on the reflect layer -/

theorem reflectValueOf_some (v : Value) : reflectValueOf (some v) = .concrete v := rfl

theorem reflectValueOf_none : reflectValueOf none = .invalid := rfl

theorem scan_concrete_cons (pt : GoType) (v : Value) (rest : List RValue) :
    scan pt (.concrete v :: rest) =
      if matchesParam pt v then .found (.concrete v) else scan pt rest := by
  by_cases hk : pt.kind = .Interface
  · simp [scan, matchesParam, hk, RValue.Type]
  · simp [scan, matchesParam, hk, RValue.Type]

theorem scan_invalid_cons (pt : GoType) (rest : List RValue) :
    scan pt (.invalid :: rest) = .panic .typeOfZeroValue := by
  by_cases hk : pt.kind = .Interface <;> simp [scan, hk, RValue.Type]

/-- The scan never reports "not found" when some candidate matches: it finds
a candidate, or panics on a nil candidate that precedes every match. -/
theorem scan_ne_notFound (pt : GoType) (pool : List Any)
    (h : ∃ a ∈ pool, candidateMatches pt a = true) :
    scan pt (pool.map reflectValueOf) ≠ .notFound := by
  induction pool with
  | nil => simp at h
  | cons a rest ih =>
    cases a with
    | none => simp [reflectValueOf_none, scan_invalid_cons]
    | some v =>
      simp only [List.map_cons, reflectValueOf_some, scan_concrete_cons]
      by_cases hm : matchesParam pt v = true
      · simp [hm]
      · simp only [hm]
        apply ih
        obtain ⟨a, ha, hma⟩ := h
        rcases List.mem_cons.mp ha with rfl | ha
        · exact absurd hma hm
        · exact ⟨a, ha, hma⟩

/-- On a pool without nil candidates the scan finds the first match. -/
theorem scan_of_no_nil (pt : GoType) (pool : List Any) (hn : ∀ a ∈ pool, a ≠ none) :
    scan pt (pool.map reflectValueOf) =
      match firstMatch pt pool with
      | some a => .found (reflectValueOf a)
      | none => .notFound := by
  induction pool with
  | nil => simp [scan, firstMatch]
  | cons a rest ih =>
    have hrest : ∀ b ∈ rest, b ≠ none := fun b hb => hn b (List.mem_cons_of_mem _ hb)
    cases a with
    | none => exact absurd rfl (hn none (List.mem_cons_self _ _))
    | some v =>
      simp only [List.map_cons, reflectValueOf_some, scan_concrete_cons]
      by_cases hm : matchesParam pt v = true
      · simp [hm, firstMatch, candidateMatches, reflectValueOf_some]
      · have := ih hrest
        simp only [firstMatch] at this
        simp [hm, firstMatch, candidateMatches, this]

/-- The scan on any pool: it stops at the first candidate that is nil or
matches, panics if that one is nil, and finds it otherwise. -/
theorem scan_eq (pt : GoType) (pool : List Any) :
    scan pt (pool.map reflectValueOf) =
      match pool.find? (fun a => a.isNone || candidateMatches pt a) with
      | none => .notFound
      | some none => .panic .typeOfZeroValue
      | some (some v) => .found (.concrete v) := by
  induction pool with
  | nil => simp [scan]
  | cons a rest ih =>
    cases a with
    | none => simp [reflectValueOf_none, scan_invalid_cons]
    | some v =>
      simp only [List.map_cons, reflectValueOf_some, scan_concrete_cons]
      by_cases hm : matchesParam pt v = true
      · simp [hm, candidateMatches]
      · simp [hm, candidateMatches, ih]

/-! ## Lemmas on the loop over the parameters -/

/-- When no scan reports "not found", the loop does not depend on the mode. -/
theorem resolve_mode_irrelevant (avs : List RValue) (ps : List GoType)
    (h : ∀ pt ∈ ps, scan pt avs ≠ .notFound) (i : Nat) (ins : List RValue) :
    resolve false avs ps i ins = resolve true avs ps i ins := by
  induction ps generalizing i ins with
  | nil => rfl
  | cons pt rest ih =>
    have hrest : ∀ q ∈ rest, scan q avs ≠ .notFound :=
      fun q hq => h q (List.mem_cons_of_mem _ hq)
    have hpt := h pt (List.mem_cons_self _ _)
    unfold resolve
    cases hs : scan pt avs with
    | found av => simp only [ih hrest]
    | notFound => exact absurd hs hpt
    | panic p => rfl

/-- When no scan reports "not found", the loop does not end on an unmatched
parameter. -/
theorem resolve_ne_unmatched (b : Bool) (avs : List RValue) (ps : List GoType)
    (h : ∀ pt ∈ ps, scan pt avs ≠ .notFound) (i : Nat) (ins : List RValue)
    (j : Nat) (t : String) :
    resolve b avs ps i ins ≠ .unmatched j t := by
  induction ps generalizing i ins with
  | nil => simp [resolve]
  | cons pt rest ih =>
    have hrest : ∀ q ∈ rest, scan q avs ≠ .notFound :=
      fun q hq => h q (List.mem_cons_of_mem _ hq)
    have hpt := h pt (List.mem_cons_self _ _)
    unfold resolve
    cases hs : scan pt avs with
    | found av => exact ih hrest _ _
    | notFound => exact absurd hs hpt
    | panic p => simp

/-- The lenient loop never ends on an unmatched parameter. -/
theorem resolve_lenient_ne_unmatched (avs : List RValue) (ps : List GoType)
    (i : Nat) (ins : List RValue) (j : Nat) (t : String) :
    resolve true avs ps i ins ≠ .unmatched j t := by
  induction ps generalizing i ins with
  | nil => simp [resolve]
  | cons pt rest ih =>
    unfold resolve
    cases hs : scan pt avs with
    | found av => exact ih _ _
    | notFound => simpa using ih _ _
    | panic p => simp

theorem set_append_replicate (pre : List RValue) (n : Nat) (x : RValue) :
    (pre ++ List.replicate (n + 1) RValue.invalid).set pre.length x =
      (pre ++ [x]) ++ List.replicate n RValue.invalid := by
  induction pre with
  | nil => simp [List.replicate_succ]
  | cons y ys ih => simpa using ih

/-- The lenient loop on a pool without nil candidates fills the vector with
`boundVector`. -/
theorem resolve_lenient_of_no_nil (pool : List Any) (hn : ∀ a ∈ pool, a ≠ none)
    (ps : List GoType) (pre : List RValue) :
    resolve true (pool.map reflectValueOf) ps pre.length
        (pre ++ List.replicate ps.length RValue.invalid) =
      .done (pre ++ boundVector ps pool) := by
  induction ps generalizing pre with
  | nil => simp [resolve, boundVector]
  | cons pt rest ih =>
    unfold resolve
    rw [scan_of_no_nil pt pool hn, List.length_cons]
    have h1 := fun x => ih (pre ++ [x])
    simp only [List.length_append, List.length_singleton] at h1
    cases hf : firstMatch pt pool with
    | none =>
      simp only [if_true]
      rw [set_append_replicate, h1]
      simp [boundVector, hf]
    | some a =>
      simp only []
      rw [set_append_replicate, h1]
      simp [boundVector, hf]

/-- The strict loop on a pool without nil candidates stops at the
lowest-indexed parameter that has no matching candidate. -/
theorem resolve_strict_unmatched (pool : List Any) (hn : ∀ a ∈ pool, a ≠ none)
    (ps : List GoType) (i : Nat) (pt : GoType) (hi : ps[i]? = some pt)
    (hu : firstMatch pt pool = none)
    (hlow : ∀ j < i, ∀ q, ps[j]? = some q → firstMatch q pool ≠ none)
    (k : Nat) (ins : List RValue) :
    resolve false (pool.map reflectValueOf) ps k ins = .unmatched (k + i) pt.name := by
  induction ps generalizing i k ins with
  | nil => simp at hi
  | cons p rest ih =>
    unfold resolve
    rw [scan_of_no_nil p pool hn]
    cases i with
    | zero =>
      simp only [List.getElem?_cons_zero, Option.some.injEq] at hi
      subst hi
      simp [hu]
    | succ i =>
      have hp : firstMatch p pool ≠ none := hlow 0 (Nat.succ_pos i) p (by simp)
      cases hf : firstMatch p pool with
      | none => exact absurd hf hp
      | some a =>
        simp only []
        rw [ih i (by simpa using hi)
          (fun j hj q hq => hlow (j + 1) (Nat.succ_lt_succ hj) q (by simpa using hq))]
        congr 1
        omega

/-! ## Lemmas on the invocation -/

theorem firstMatch_some (pt : GoType) (pool : List Any) (a : Any)
    (h : firstMatch pt pool = some a) :
    ∃ v, a = some v ∧ a ∈ pool ∧ matchesParam pt v = true := by
  have hm : candidateMatches pt a = true := List.find?_some h
  have hmem : a ∈ pool := List.mem_of_find?_eq_some h
  cases a with
  | none => simp [candidateMatches] at hm
  | some v => exact ⟨v, rfl, hmem, hm⟩

theorem assignable_of_matchesParam (pt : GoType) (v : Value)
    (h : matchesParam pt v = true) : assignable v.typ pt = true := by
  unfold matchesParam at h
  unfold assignable
  by_cases hk : pt.kind = .Interface
  · simp only [hk, if_true] at h
    simp [hk, h]
  · simp only [hk, if_false, decide_eq_true_eq] at h
    simp [h]

/-- Each slot of `boundVector` is a valid Value assignable to its parameter. -/
theorem boundSlot_type (pt : GoType) (pool : List Any) :
    ∃ xt, (match firstMatch pt pool with
            | some a => reflectValueOf a
            | none => reflectZero pt).Type = .ret xt ∧ assignable xt pt = true := by
  cases hf : firstMatch pt pool with
  | none =>
    refine ⟨pt, ?_, by simp [assignable]⟩
    by_cases hk : pt.kind = .Interface <;> simp [reflectZero, hk, RValue.Type]
  | some a =>
    obtain ⟨v, rfl, _, hm⟩ := firstMatch_some pt pool a hf
    exact ⟨v.typ, rfl, assignable_of_matchesParam pt v hm⟩

theorem boundVector_length (ps : List GoType) (pool : List Any) :
    (boundVector ps pool).length = ps.length := by
  simp [boundVector]

theorem boundVector_valid (ps : List GoType) (pool : List Any) :
    (boundVector ps pool).any (fun x => decide (x = .invalid)) = false := by
  induction ps with
  | nil => rfl
  | cons pt rest ih =>
    obtain ⟨xt, hx, _⟩ := boundSlot_type pt pool
    have hne : (match firstMatch pt pool with
            | some a => reflectValueOf a
            | none => reflectZero pt) ≠ RValue.invalid := by
      intro h
      rw [h] at hx
      simp [RValue.Type] at hx
    simp only [boundVector, List.map_cons, List.any_cons, Bool.or_eq_false_iff,
      decide_eq_false_iff_not]
    exact ⟨hne, ih⟩

theorem boundVector_assignable (ps : List GoType) (pool : List Any) :
    assignableAll (boundVector ps pool) ps = true := by
  induction ps with
  | nil => rfl
  | cons pt rest ih =>
    obtain ⟨xt, hx, ha⟩ := boundSlot_type pt pool
    simp only [boundVector, List.map_cons, assignableAll, Bool.and_eq_true]
    refine ⟨?_, ih⟩
    rw [hx]
    exact ha

/-- The reflect call of a function that is not variadic on `boundVector` does
not panic: it runs the function. -/
theorem reflectCall_boundVector {σ : Type} (fn : Func σ) (hv : fn.typ.variadic = none)
    (pool : List Any) (s : σ) :
    reflectCall fn (boundVector fn.typ.ins pool) s =
      .ret (fn.body s (assignAll (boundVector fn.typ.ins pool) fn.typ.ins)) := by
  simp [reflectCall, hv, boundVector_length, boundVector_valid, boundVector_assignable]

theorem hasTypes_length (outs : List RValue) (ts : List GoType)
    (h : hasTypes outs ts = true) : outs.length = ts.length := by
  induction outs generalizing ts with
  | nil => cases ts <;> simp_all [hasTypes]
  | cons x xs ih =>
    cases ts with
    | nil => simp [hasTypes] at h
    | cons t ts =>
      simp only [hasTypes, Bool.and_eq_true] at h
      simp [ih ts h.2]

/-- On well-typed results the loop over `out.Interface()` does not panic. -/
theorem interfaces_of_hasTypes (outs : List RValue) (ts : List GoType)
    (h : hasTypes outs ts = true) : interfaces outs = .ret (outs.map RValue.elem) := by
  induction outs generalizing ts with
  | nil => rfl
  | cons x xs ih =>
    cases ts with
    | nil => simp [hasTypes] at h
    | cons t ts =>
      simp only [hasTypes, Bool.and_eq_true] at h
      cases x with
      | invalid => simp [RValue.hasType] at h
      | concrete v => simp [interfaces, RValue.Interface, RValue.elem, ih ts h.2]
      | iface u e => simp [interfaces, RValue.Interface, RValue.elem, ih ts h.2]

/-- What `call` returns once the loop over the parameters has built `ins` and
the reflect call on `ins` has run the function. -/
theorem call_of_done {σ : Type} (b : Bool) (fn : Func σ) (args : List Any) (s : σ)
    (ins : List RValue)
    (hr : resolve b (args.map reflectValueOf) fn.typ.ins 0
      (List.replicate fn.typ.ins.length RValue.invalid) = .done ins)
    (hc : reflectCall fn ins s = .ret (fn.body s (assignAll ins fn.typ.ins))) :
    call b (.func fn) args s =
      .ret (resultSlice (fn.body s (assignAll ins fn.typ.ins)).1, none,
        (fn.body s (assignAll ins fn.typ.ins)).2) := by
  have ht := fn.typed s (assignAll ins fn.typ.ins)
  simp only [call, hr, hc, resultSlice, interfaces_of_hasTypes _ _ ht]
  split <;> rfl

/-- On a pool without nil candidates, the lenient call of a function that is
not variadic runs the function on `boundVector` and returns its results with a
nil error. -/
theorem CallOptional_of_no_nil {σ : Type} (fn : Func σ) (hv : fn.typ.variadic = none)
    (pool : List Any) (s : σ) (hn : ∀ a ∈ pool, a ≠ none) :
    CallOptional (.func fn) pool s =
      .ret (resultSlice (fn.body s (assignAll (boundVector fn.typ.ins pool) fn.typ.ins)).1,
        none, (fn.body s (assignAll (boundVector fn.typ.ins pool) fn.typ.ins)).2) := by
  apply call_of_done
  · simpa using resolve_lenient_of_no_nil pool hn fn.typ.ins []
  · exact reflectCall_boundVector fn hv pool s

theorem scan_ne_notFound_of_allMatched (ps : List GoType) (pool : List Any)
    (h : AllMatched ps pool) : ∀ pt ∈ ps, scan pt (pool.map reflectValueOf) ≠ .notFound :=
  fun pt hpt => scan_ne_notFound pt pool (h pt hpt)

/-- On a pool without nil candidates in which every parameter has a match, the
strict call of a function that is not variadic runs the function on
`boundVector`, the vector of first matches. -/
theorem Call_of_no_nil {σ : Type} (fn : Func σ) (hv : fn.typ.variadic = none)
    (pool : List Any) (s : σ)
    (hn : ∀ a ∈ pool, a ≠ none) (hm : AllMatched fn.typ.ins pool) :
    Call (.func fn) pool s =
      .ret (resultSlice (fn.body s (assignAll (boundVector fn.typ.ins pool) fn.typ.ins)).1,
        none, (fn.body s (assignAll (boundVector fn.typ.ins pool) fn.typ.ins)).2) := by
  apply call_of_done
  · rw [resolve_mode_irrelevant _ _ (scan_ne_notFound_of_allMatched _ _ hm)]
    simpa using resolve_lenient_of_no_nil pool hn fn.typ.ins []
  · exact reflectCall_boundVector fn hv pool s

/-- On a pool without nil candidates, the strict call fails on the
lowest-indexed parameter without a match, and does not run the function. -/
theorem Call_unmatched_of_no_nil {σ : Type} (fn : Func σ) (pool : List Any) (s : σ)
    (hn : ∀ a ∈ pool, a ≠ none) (i : Nat) (pt : GoType) (hi : fn.typ.ins[i]? = some pt)
    (hu : firstMatch pt pool = none)
    (hlow : ∀ j < i, ∀ q, fn.typ.ins[j]? = some q → firstMatch q pool ≠ none) :
    Call (.func fn) pool s = .ret (none, some (.unmatched i pt.name), s) := by
  simp [Call, call, resolve_strict_unmatched pool hn fn.typ.ins i pt hi hu hlow]

theorem ExtractError_func {σ : Type} (fn : Func σ) (outs : Slice) :
    ExtractError (.func fn) outs = splitByType fn.typ outs := rfl

theorem ExtractError_nilFunc {σ : Type} (ft : FuncType) (outs : Slice) :
    ExtractError (Target.nilFunc ft : Target σ) outs = splitByType ft outs := rfl

/-- An error that the split reports is a result value. -/
theorem splitByType_error_ofValue (ft : FuncType) (outs info : Slice)
    (e : GoError) (h : splitByType ft outs = .ret (info, some e)) :
    ∃ v, e = .ofValue v := by
  unfold splitByType at h
  split at h
  · simp at h
  · split at h
    · simp at h
    · split at h
      · simp at h
      · split at h
        · split at h
          · simp at h
          · split at h
            · simp at h
            · split at h
              · simp at h
              · split at h
                · simp at h
                · rename_i he1
                  simp only [Run.ret.injEq, Prod.mk.injEq, Option.some.injEq] at h
                  unfold assertError at he1
                  split at he1
                  · simp only [Run.ret.injEq] at he1
                    exact ⟨_, by rw [← h.2, ← he1]⟩
                  · simp at he1
        · simp at h

/-- An error that `ExtractError` reports is a result value, never one of the
errors that `call` constructs. -/
theorem ExtractError_error_ofValue {σ : Type} (f : Target σ) (outs info : Slice)
    (e : GoError) (h : ExtractError f outs = .ret (info, some e)) :
    ∃ v, e = .ofValue v := by
  cases f with
  | nil => simp [ExtractError] at h
  | nonFunc v hv => simp [ExtractError] at h
  | func fn => exact splitByType_error_ofValue fn.typ outs info e h
  | nilFunc ft => exact splitByType_error_ofValue ft outs info e h

/-- A strict call that returns the unmatched-parameter error has not run the
function. -/
theorem call_unmatched_state {σ : Type} (b : Bool) (f : Target σ) (pool : List Any)
    (s s' : σ) (outs : Slice) (i : Nat) (t : String)
    (h : call b f pool s = .ret (outs, some (.unmatched i t), s')) :
    s' = s ∧ outs = none := by
  unfold call at h
  split at h
  · simp at h
  · simp at h
  · simp only at h
    split at h
    · simp at h
    · simp only [Run.ret.injEq, Prod.mk.injEq] at h
      exact ⟨h.2.2.symm, h.1.symm⟩
    · split at h
      · simp at h
      · split at h
        · simp at h
        · split at h
          · simp at h
          · simp at h
  · split at h
    · simp at h
    · simp only [Run.ret.injEq, Prod.mk.injEq] at h
      exact ⟨h.2.2.symm, h.1.symm⟩
    · simp at h

/-- The split on results of the declared length whose last declared type
implements `error` and whose last value `l` is nil or implements `error`. -/
theorem ExtractError_trailing {σ : Type} (fn : Func σ) (xs : List Any) (lt : GoType)
    (l : Any) (hlt : fn.typ.outs.getLast? = some lt)
    (herr : lt.Implements errorType = true) (hlen : xs.length = fn.typ.outs.length)
    (hl : xs.getLast? = some l)
    (hty : ∀ v, l = some v → v.typ.Implements errorType = true) :
    ExtractError (.func fn) (some xs) =
      .ret (some (xs.take (xs.length - 1)), l.map GoError.ofValue) := by
  have hne : fn.typ.outs.length ≠ 0 := by
    intro h0
    rw [List.length_eq_zero] at h0
    simp [h0] at hlt
  have hlt' : fn.typ.outs[fn.typ.outs.length - 1]? = some lt := by
    rw [← List.getLast?_eq_getElem?]
    exact hlt
  have hl' : xs[xs.length - 1]? = some l := by
    rw [← List.getLast?_eq_getElem?]
    exact hl
  rw [ExtractError_func]
  unfold splitByType
  simp only [Slice.len, hlen, ne_eq, not_true_eq_false, if_false, hne, hlt', herr, if_true,
    Slice.index, Slice.upTo]
  rw [← hlen, hl']
  simp only [Nat.sub_le, if_true]
  cases l with
  | none => rfl
  | some v => simp [assertError, hty v rfl]

/-- The split panics on a non-nil last value that does not implement `error`. -/
theorem ExtractError_trailing_not_error {σ : Type} (fn : Func σ) (xs : List Any)
    (lt : GoType) (v : Value) (hlt : fn.typ.outs.getLast? = some lt)
    (herr : lt.Implements errorType = true) (hlen : xs.length = fn.typ.outs.length)
    (hl : xs.getLast? = some (some v)) (hty : v.typ.Implements errorType = false) :
    ExtractError (.func fn) (some xs) = .panic .typeAssertion := by
  have hne : fn.typ.outs.length ≠ 0 := by
    intro h0
    rw [List.length_eq_zero] at h0
    simp [h0] at hlt
  have hlt' : fn.typ.outs[fn.typ.outs.length - 1]? = some lt := by
    rw [← List.getLast?_eq_getElem?]
    exact hlt
  have hl' : xs[xs.length - 1]? = some (some v) := by
    rw [← List.getLast?_eq_getElem?]
    exact hl
  rw [ExtractError_func]
  unfold splitByType
  simp only [Slice.len, hlen, ne_eq, not_true_eq_false, if_false, hne, hlt', herr, if_true,
    Slice.index, Slice.upTo]
  rw [← hlen, hl']
  simp [assertError, hty]

/-- A results slice of a positive length is not nil and has a last value. -/
theorem Slice.last_of_len (results : Slice) (n : Nat) (hn : n ≠ 0) (hlen : results.len = n) :
    ∃ xs l, results = some xs ∧ xs.length = n ∧ xs.getLast? = some l ∧
      results.index (results.len - 1) = .ret l := by
  cases results with
  | none => exact absurd hlen.symm hn
  | some xs =>
    have hlen' : xs.length = n := hlen
    have hlt : xs.length - 1 < xs.length := by omega
    refine ⟨xs, xs[xs.length - 1], rfl, hlen', ?_, ?_⟩
    · rw [List.getLast?_eq_getElem?, List.getElem?_eq_getElem hlt]
    · simp [Slice.index, Slice.len, List.getElem?_eq_getElem hlt]

/-- A target that is a value of a non-function type is rejected before any
matching, in both modes: nil result, the error "not a func", state untouched. -/
theorem call_nonFunc {σ : Type} (b : Bool) (v : Value) (h : v.typ.kind ≠ Kind.Func)
    (pool : List Any) (s : σ) :
    call b (Target.nonFunc v h) pool s = .ret (none, some .notAFunc, s) := rfl

/-- A nil candidate at the head of the pool makes the call panic during
matching, in both modes, as soon as the function has a parameter. -/
theorem call_nil_candidate_first {σ : Type} (b : Bool) (fn : Func σ)
    (hp : fn.typ.ins ≠ []) (pool : List Any) (s : σ) :
    call b (.func fn) (none :: pool) s = .panic .typeOfZeroValue := by
  have hr : ∀ ins, resolve b (RValue.invalid :: pool.map reflectValueOf) fn.typ.ins 0 ins =
      .panic .typeOfZeroValue := by
    intro ins
    cases hi : fn.typ.ins with
    | nil => exact absurd hi hp
    | cons pt rest => simp [resolve, scan_invalid_cons]
  simp [call, reflectValueOf_none, hr]

/-! ## Lemmas on pools with any candidates -/

/-- The loop over the parameters looks at the candidates through the scans
only. -/
theorem resolve_congr (b : Bool) (avs avs' : List RValue) (ps : List GoType)
    (h : ∀ pt ∈ ps, scan pt avs = scan pt avs') (i : Nat) (ins : List RValue) :
    resolve b avs ps i ins = resolve b avs' ps i ins := by
  induction ps generalizing i ins with
  | nil => rfl
  | cons pt rest ih =>
    have hrest : ∀ q ∈ rest, scan q avs = scan q avs' :=
      fun q hq => h q (List.mem_cons_of_mem _ hq)
    have hpt := h pt (List.mem_cons_self _ _)
    unfold resolve
    rw [← hpt]
    cases scan pt avs with
    | found av => exact ih hrest _ _
    | notFound =>
      cases b with
      | true => simpa using ih hrest _ _
      | false => rfl
    | panic p => rfl

/-- Two pools on which every parameter's scan ends the same way give the same
outcome. -/
theorem call_congr {σ : Type} (b : Bool) (fn : Func σ) (pool pool' : List Any) (s : σ)
    (h : ∀ pt ∈ fn.typ.ins,
      scan pt (pool.map reflectValueOf) = scan pt (pool'.map reflectValueOf)) :
    call b (.func fn) pool s = call b (.func fn) pool' s := by
  simp only [call, resolve_congr b _ _ fn.typ.ins h]

/-- A candidate that the scan finds is the first match of the pool. -/
theorem scan_found_firstMatch (pt : GoType) (pool : List Any) (av : RValue)
    (h : scan pt (pool.map reflectValueOf) = .found av) :
    ∃ a, firstMatch pt pool = some a ∧ av = reflectValueOf a := by
  induction pool with
  | nil => simp [scan] at h
  | cons a rest ih =>
    cases a with
    | none => simp [reflectValueOf_none, scan_invalid_cons] at h
    | some v =>
      simp only [List.map_cons, reflectValueOf_some, scan_concrete_cons] at h
      by_cases hm : matchesParam pt v = true
      · simp only [hm, if_true, Scan.found.injEq] at h
        exact ⟨some v, by simp [firstMatch, candidateMatches, hm], by rw [← h]; rfl⟩
      · simp only [hm] at h
        obtain ⟨a, ha, hav⟩ := ih h
        refine ⟨a, ?_, hav⟩
        simp only [firstMatch] at ha
        simp [firstMatch, candidateMatches, hm, ha]

/-- A scan that finds nothing has seen no match (and no nil candidate). -/
theorem scan_notFound_firstMatch (pt : GoType) (pool : List Any)
    (h : scan pt (pool.map reflectValueOf) = .notFound) :
    firstMatch pt pool = none := by
  induction pool with
  | nil => rfl
  | cons a rest ih =>
    cases a with
    | none => simp [reflectValueOf_none, scan_invalid_cons] at h
    | some v =>
      simp only [List.map_cons, reflectValueOf_some, scan_concrete_cons] at h
      by_cases hm : matchesParam pt v = true
      · simp [hm] at h
      · simp only [hm] at h
        have := ih h
        simp only [firstMatch] at this
        simp [firstMatch, candidateMatches, hm, this]

/-- Whenever the loop over the parameters completes, on any pool and in either
mode, the vector it has built is `boundVector`: each slot holds the first
matching candidate of its parameter, or the zero value of its type. -/
theorem resolve_done_eq (b : Bool) (pool : List Any) (ps : List GoType)
    (pre ins : List RValue)
    (h : resolve b (pool.map reflectValueOf) ps pre.length
      (pre ++ List.replicate ps.length RValue.invalid) = .done ins) :
    ins = pre ++ boundVector ps pool := by
  induction ps generalizing pre with
  | nil => simpa [resolve, boundVector] using h.symm
  | cons pt rest ih =>
    unfold resolve at h
    have h1 := fun x => ih (pre ++ [x])
    simp only [List.length_append, List.length_singleton] at h1
    rw [List.length_cons] at h
    cases hs : scan pt (pool.map reflectValueOf) with
    | panic p => simp [hs] at h
    | found av =>
      obtain ⟨a, ha, hav⟩ := scan_found_firstMatch pt pool av hs
      simp only [hs] at h
      rw [set_append_replicate] at h
      rw [h1 av h]
      simp [boundVector, ha, hav]
    | notFound =>
      have ha := scan_notFound_firstMatch pt pool hs
      simp only [hs] at h
      cases b with
      | false => simp at h
      | true =>
        simp only [if_true] at h
        rw [set_append_replicate] at h
        rw [h1 _ h]
        simp [boundVector, ha]

/-- Whenever the loop over the parameters completes, the call runs the function
on `boundVector` and returns its results with a nil error. -/
theorem call_of_resolve_done {σ : Type} (b : Bool) (fn : Func σ)
    (hv : fn.typ.variadic = none) (pool : List Any) (s : σ)
    (ins : List RValue)
    (h : resolve b (pool.map reflectValueOf) fn.typ.ins 0
      (List.replicate fn.typ.ins.length RValue.invalid) = .done ins) :
    ins = boundVector fn.typ.ins pool ∧
    call b (.func fn) pool s =
      .ret (resultSlice (fn.body s (assignAll ins fn.typ.ins)).1, none,
        (fn.body s (assignAll ins fn.typ.ins)).2) := by
  have hb : ins = boundVector fn.typ.ins pool := by
    simpa using resolve_done_eq b pool fn.typ.ins [] ins (by simpa using h)
  refine ⟨hb, call_of_done b fn pool s ins h ?_⟩
  rw [hb]
  exact reflectCall_boundVector fn hv pool s

/-- The reflect call panics, or runs the function on some arguments. -/
theorem reflectCall_cases {σ : Type} (fn : Func σ) (ins : List RValue) (s : σ) :
    (∃ p, reflectCall fn ins s = .panic p) ∨
    ∃ args, reflectCall fn ins s = .ret (fn.body s args) := by
  unfold reflectCall
  split
  · split
    · exact Or.inl ⟨_, rfl⟩
    · split
      · exact Or.inl ⟨_, rfl⟩
      · split
        · exact Or.inl ⟨_, rfl⟩
        · exact Or.inr ⟨_, rfl⟩
  · split
    · exact Or.inl ⟨_, rfl⟩
    · split
      · exact Or.inl ⟨_, rfl⟩
      · split
        · exact Or.inl ⟨_, rfl⟩
        · split
          · exact Or.inl ⟨_, rfl⟩
          · exact Or.inr ⟨_, rfl⟩

/-- What `call` returns once the loop over the parameters has built `ins` and
the reflect call on `ins` has run the function on `args`. -/
theorem call_of_done_args {σ : Type} (b : Bool) (fn : Func σ) (pool : List Any) (s : σ)
    (ins args : List RValue)
    (hr : resolve b (pool.map reflectValueOf) fn.typ.ins 0
      (List.replicate fn.typ.ins.length RValue.invalid) = .done ins)
    (hc : reflectCall fn ins s = .ret (fn.body s args)) :
    call b (.func fn) pool s =
      .ret (resultSlice (fn.body s args).1, none, (fn.body s args).2) := by
  have ht := fn.typed s args
  simp only [call, hr, hc, resultSlice, interfaces_of_hasTypes _ _ ht]
  split <;> rfl

/-- The outcomes of `call` on a function: a panic, the unmatched-parameter
error with the state untouched, or the results of the function on some
arguments with a nil error. -/
theorem call_func_cases {σ : Type} (b : Bool) (fn : Func σ) (pool : List Any) (s : σ) :
    (∃ p, call b (.func fn) pool s = .panic p) ∨
    (∃ i t, call b (.func fn) pool s = .ret (none, some (.unmatched i t), s)) ∨
    ∃ args, call b (.func fn) pool s =
      .ret (resultSlice (fn.body s args).1, none, (fn.body s args).2) := by
  cases hr : resolve b (pool.map reflectValueOf) fn.typ.ins 0
      (List.replicate fn.typ.ins.length RValue.invalid) with
  | panic p => exact Or.inl ⟨p, by simp [call, hr]⟩
  | unmatched i t => exact Or.inr (Or.inl ⟨i, t, by simp [call, hr]⟩)
  | done ins =>
    rcases reflectCall_cases fn ins s with ⟨p, hp⟩ | ⟨args, ha⟩
    · exact Or.inl ⟨p, by simp [call, hr, hp]⟩
    · exact Or.inr (Or.inr ⟨args, call_of_done_args b fn pool s ins args hr ha⟩)

/-- The outcomes of `call` on the nil value of a function type: a panic, or
the unmatched-parameter error with the state untouched. -/
theorem call_nilFunc_cases {σ : Type} (b : Bool) (ft : FuncType) (pool : List Any) (s : σ) :
    (∃ p, call b (Target.nilFunc ft) pool s = .panic p) ∨
    (∃ i t, call b (Target.nilFunc ft) pool s = .ret (none, some (.unmatched i t), s)) := by
  cases hr : resolve b (pool.map reflectValueOf) ft.ins 0
      (List.replicate ft.ins.length RValue.invalid) with
  | panic p => exact Or.inl ⟨p, by simp [call, hr]⟩
  | unmatched i t => exact Or.inr ⟨i, t, by simp [call, hr]⟩
  | done ins => exact Or.inl ⟨.callNilFunction, by simp [call, hr]⟩

/-- The errors that `call` returns are the two it constructs, with a nil
result; it never returns a result value as its error. -/
theorem call_error_shape {σ : Type} (b : Bool) (f : Target σ) (pool : List Any)
    (s s' : σ) (outs : Slice) (e : GoError)
    (h : call b f pool s = .ret (outs, some e, s')) :
    outs = none ∧ (e = .notAFunc ∨ ∃ i t, e = .unmatched i t) := by
  cases f with
  | nil => simp [call] at h
  | nonFunc v hv =>
    simp only [call, Run.ret.injEq, Prod.mk.injEq, Option.some.injEq] at h
    exact ⟨h.1.symm, Or.inl h.2.1.symm⟩
  | func fn =>
    rcases call_func_cases b fn pool s with ⟨p, hp⟩ | ⟨i, t, hu⟩ | hd
    · rw [hp] at h
      simp at h
    · rw [hu] at h
      simp only [Run.ret.injEq, Prod.mk.injEq, Option.some.injEq] at h
      exact ⟨h.1.symm, Or.inr ⟨i, t, h.2.1.symm⟩⟩
    · obtain ⟨args, hd⟩ := hd
      rw [hd] at h
      simp at h
  | nilFunc ft =>
    rcases call_nilFunc_cases b ft pool s with ⟨p, hp⟩ | ⟨i, t, hu⟩
    · rw [hp] at h
      simp at h
    · rw [hu] at h
      simp only [Run.ret.injEq, Prod.mk.injEq, Option.some.injEq] at h
      exact ⟨h.1.symm, Or.inr ⟨i, t, h.2.1.symm⟩⟩

/-- Implementing an interface is transitive: a type whose method set contains
that of `u` implements whatever `u` implements. -/
theorem Implements_trans (t u w : GoType) (h1 : t.Implements u = true)
    (h2 : u.Implements w = true) : t.Implements w = true := by
  simp only [GoType.Implements, List.all_eq_true, decide_eq_true_eq] at *
  exact fun m hm => h1 m (h2 m hm)

/-- A non-nil candidate that does not match `pt` is passed over by the scan
for `pt`, wherever it stands in the pool. -/
theorem scan_insert_unmatched (pt : GoType) (x : Value) (pre post : List Any)
    (hx : matchesParam pt x = false) :
    scan pt ((pre ++ some x :: post).map reflectValueOf) =
      scan pt ((pre ++ post).map reflectValueOf) := by
  induction pre with
  | nil => simp [reflectValueOf_some, scan_concrete_cons, hx]
  | cons a rest ih =>
    cases a with
    | none => simp [reflectValueOf_none, scan_invalid_cons]
    | some v =>
      simp only [List.cons_append, List.map_cons, reflectValueOf_some, scan_concrete_cons]
      rw [ih]

/-- A non-nil candidate that matches no declared parameter can be inserted
anywhere in the pool without changing the outcome, in either mode. -/
theorem call_insert_unmatched {σ : Type} (b : Bool) (fn : Func σ) (x : Value)
    (pre post : List Any) (s : σ) (hx : ∀ pt ∈ fn.typ.ins, matchesParam pt x = false) :
    call b (.func fn) (pre ++ some x :: post) s = call b (.func fn) (pre ++ post) s :=
  call_congr b fn _ _ s (fun pt hpt => scan_insert_unmatched pt x pre post (hx pt hpt))

/-- When at most one candidate of the pool matches `pt`, every permutation of
the pool has the same first match for `pt`. -/
theorem firstMatch_perm (pt : GoType) (pool pool' : List Any) (hp : pool.Perm pool')
    (h1 : (pool.filter (candidateMatches pt)).length ≤ 1) :
    firstMatch pt pool = firstMatch pt pool' := by
  unfold firstMatch
  rw [← List.filter_head?, ← List.filter_head?]
  have hf := hp.filter (candidateMatches pt)
  have he : pool.filter (candidateMatches pt) = pool'.filter (candidateMatches pt) := by
    match hl : pool.filter (candidateMatches pt) with
    | [] =>
      rw [hl] at hf
      exact (List.nil_perm.mp hf).symm
    | [a] =>
      rw [hl] at hf
      exact (List.perm_singleton.mp hf.symm).symm
    | a :: c :: r =>
      rw [hl] at h1
      simp at h1
  rw [he]

/-- On a pool without nil candidates in which no parameter is matched by more
than one candidate, every permutation of the pool gives the same outcome, in
either mode. -/
theorem call_perm_of_no_nil {σ : Type} (b : Bool) (fn : Func σ) (pool pool' : List Any)
    (s : σ) (hp : pool.Perm pool') (hn : ∀ a ∈ pool, a ≠ none)
    (h1 : ∀ pt ∈ fn.typ.ins, (pool.filter (candidateMatches pt)).length ≤ 1) :
    call b (.func fn) pool s = call b (.func fn) pool' s := by
  have hn' : ∀ a ∈ pool', a ≠ none := fun a ha => hn a (hp.mem_iff.mpr ha)
  apply call_congr
  intro pt hpt
  rw [scan_of_no_nil pt pool hn, scan_of_no_nil pt pool' hn',
    firstMatch_perm pt pool pool' hp (h1 pt hpt)]

/-- The match test looks at the runtime type of the candidate only. -/
theorem matchesParam_of_typ_eq (pt : GoType) (u v : Value) (h : u.typ = v.typ) :
    matchesParam pt u = matchesParam pt v := by
  simp [matchesParam, h]

/-- A scan that stops inside a prefix of the pool does not see what follows. -/
theorem scan_append_of_stop (pt : GoType) (pre rest : List Any)
    (h : scan pt (pre.map reflectValueOf) ≠ .notFound) :
    scan pt ((pre ++ rest).map reflectValueOf) = scan pt (pre.map reflectValueOf) := by
  induction pre with
  | nil => simp [scan] at h
  | cons a tl ih =>
    cases a with
    | none => simp [reflectValueOf_none, scan_invalid_cons]
    | some v =>
      simp only [List.cons_append, List.map_cons, reflectValueOf_some,
        scan_concrete_cons] at h ⊢
      by_cases hm : matchesParam pt v = true
      · simp [hm]
      · simp only [hm] at h ⊢
        exact ih h

/-- The scan is the same with and without a candidate whose runtime type is
that of an earlier candidate. -/
theorem scan_remove_duplicate (pt : GoType) (pre post : List Any) (u v : Value)
    (hu : some u ∈ pre) (ht : u.typ = v.typ) :
    scan pt ((pre ++ some v :: post).map reflectValueOf) =
      scan pt ((pre ++ post).map reflectValueOf) := by
  by_cases hm : matchesParam pt v = true
  · have hstop : scan pt (pre.map reflectValueOf) ≠ .notFound :=
      scan_ne_notFound pt pre
        ⟨some u, hu, by simpa [candidateMatches, matchesParam_of_typ_eq pt u v ht] using hm⟩
    rw [scan_append_of_stop pt pre _ hstop, scan_append_of_stop pt pre _ hstop]
  · exact scan_insert_unmatched pt v pre post (by simpa using hm)

/-- The length of the results of a returned call. -/
theorem resultSlice_len (outs : List RValue) : (resultSlice outs).len = outs.length := by
  unfold resultSlice
  split
  · rename_i h0
    simp [Slice.len, h0]
  · simp [Slice.len]

/-- Well-typed results are well-typed position by position. -/
theorem hasTypes_getElem (outs : List RValue) (ts : List GoType)
    (h : hasTypes outs ts = true) (k : Nat) (x : RValue) (t : GoType)
    (hx : outs[k]? = some x) (ht : ts[k]? = some t) : x.hasType t = true := by
  induction outs generalizing ts k with
  | nil => simp at hx
  | cons y ys ih =>
    cases ts with
    | nil => simp at ht
    | cons t0 ts =>
      simp only [hasTypes, Bool.and_eq_true] at h
      cases k with
      | zero =>
        simp only [List.getElem?_cons_zero, Option.some.injEq] at hx ht
        rw [← hx, ← ht]
        exact h.1
      | succ k =>
        simp only [List.getElem?_cons_succ] at hx ht
        exact ih ts h.2 k hx ht

/-- A value of a declared type that implements `error` holds nil or a value
implementing `error`. -/
theorem hasType_elem_error (x : RValue) (lt : GoType) (v : Value)
    (h : x.hasType lt = true) (herr : lt.Implements errorType = true)
    (hv : x.elem = some v) : v.typ.Implements errorType = true := by
  cases x with
  | invalid => simp [RValue.hasType] at h
  | concrete w =>
    simp only [RValue.hasType, Bool.and_eq_true, beq_iff_eq] at h
    simp only [RValue.elem, Option.some.injEq] at hv
    rw [← hv, h.2]
    exact herr
  | iface u e =>
    simp only [RValue.elem] at hv
    subst hv
    simp only [RValue.hasType, Bool.and_eq_true] at h
    exact Implements_trans _ _ _ h.2 herr

/-- The split returns on results of the declared length whose last value,
when the last declared type implements `error`, is nil or implements `error`. -/
theorem ExtractError_returns {σ : Type} (fn : Func σ) (results : Slice)
    (hlen : results.len = fn.typ.outs.length)
    (hty : ∀ lt v, fn.typ.outs.getLast? = some lt → lt.Implements errorType = true →
      results.index (results.len - 1) = .ret (some v) → v.typ.Implements errorType = true) :
    ∃ info err, ExtractError (.func fn) results = .ret (info, err) := by
  by_cases h0 : fn.typ.outs.length = 0
  · exact ⟨none, none, by simp [ExtractError, splitByType, hlen, h0]⟩
  · have hlt : fn.typ.outs.length - 1 < fn.typ.outs.length := by omega
    have hl : fn.typ.outs.getLast? = some (fn.typ.outs[fn.typ.outs.length - 1]) := by
      rw [List.getLast?_eq_getElem?, List.getElem?_eq_getElem hlt]
    by_cases herr : (fn.typ.outs[fn.typ.outs.length - 1]).Implements errorType = true
    · obtain ⟨xs, l, rfl, hxs, hlast, hidx⟩ := Slice.last_of_len results _ h0 hlen
      refine ⟨_, _, ExtractError_trailing fn xs _ l hl herr hxs hlast ?_⟩
      intro v hv
      apply hty _ v hl herr
      rw [hidx, hv]
    · exact ⟨results, none, by
        have hx : fn.typ.outs[fn.typ.outs.length - 1]? =
            some (fn.typ.outs[fn.typ.outs.length - 1]) := List.getElem?_eq_getElem hlt
        simp [ExtractError, splitByType, hlen, h0, hx, herr]⟩

/-- The results of a call that returned a nil error satisfy what the split
requires: the declared length, and a last value that is nil or implements
`error` when the last declared type does. -/
theorem call_results_typed {σ : Type} (b : Bool) (fn : Func σ) (pool : List Any)
    (s s' : σ) (outs : Slice) (h : call b (.func fn) pool s = .ret (outs, none, s')) :
    outs.len = fn.typ.outs.length ∧
    (fn.typ.outs.length = 0 → outs = none) ∧
    (∀ lt v, fn.typ.outs.getLast? = some lt → lt.Implements errorType = true →
      outs.index (outs.len - 1) = .ret (some v) → v.typ.Implements errorType = true) := by
  rcases call_func_cases b fn pool s with ⟨p, hp⟩ | ⟨i, t, hu⟩ | hd
  · rw [hp] at h
    simp at h
  · rw [hu] at h
    simp at h
  · obtain ⟨args, hd⟩ := hd
    rw [hd] at h
    simp only [Run.ret.injEq, Prod.mk.injEq] at h
    have ht := fn.typed s args
    have hlen := hasTypes_length _ _ ht
    rw [← h.1]
    refine ⟨by rw [resultSlice_len, hlen], ?_, ?_⟩
    · intro h0
      simp [resultSlice, hlen, h0]
    · intro lt v hlt herr hidx
      rw [resultSlice_len] at hidx
      unfold resultSlice at hidx
      split at hidx
      · simp [Slice.index] at hidx
      · simp only [Slice.index, List.getElem?_map] at hidx
        cases hx : (fn.body s args).1[(fn.body s args).1.length - 1]? with
        | none => simp [hx] at hidx
        | some x =>
          simp only [hx, Option.map_some', Run.ret.injEq] at hidx
          have hlt' : fn.typ.outs[fn.typ.outs.length - 1]? = some lt := by
            rw [← List.getLast?_eq_getElem?]
            exact hlt
          rw [hlen] at hx
          exact hasType_elem_error x lt v (hasTypes_getElem _ _ ht _ x lt hx hlt') herr hidx

/-- On a candidate of a concrete runtime type the test of the code and the
test of the specification agree. -/
theorem matchesParam_eq_specMatches (pt : GoType) (v : Value)
    (hc : v.typ.kind ≠ .Interface) : matchesParam pt v = specMatches pt v.typ := by
  unfold matchesParam specMatches
  by_cases hk : pt.kind = .Interface
  · have hne : v.typ ≠ pt := fun h => hc (by rw [h]; exact hk)
    simp [hk, hne]
  · simp [hk]

/-- On candidates of concrete runtime types (and nil candidates) the scan of
the code and the scan with the specification's test end the same way. -/
theorem scan_eq_specScan (pt : GoType) (pool : List Any)
    (hc : ∀ v, some v ∈ pool → v.typ.kind ≠ .Interface) :
    scan pt (pool.map reflectValueOf) = specScan pt (pool.map reflectValueOf) := by
  induction pool with
  | nil => rfl
  | cons a rest ih =>
    have hrest : ∀ v, some v ∈ rest → v.typ.kind ≠ .Interface :=
      fun v hv => hc v (List.mem_cons_of_mem _ hv)
    cases a with
    | none => simp [reflectValueOf_none, scan_invalid_cons, specScan, RValue.Type]
    | some v =>
      simp only [List.map_cons, reflectValueOf_some, scan_concrete_cons, specScan,
        RValue.Type]
      rw [matchesParam_eq_specMatches pt v (hc v (List.mem_cons_self _ _)), ih hrest]

/-- The two loops over the parameters agree when the two scans do. -/
theorem resolve_eq_specResolve (b : Bool) (avs : List RValue) (ps : List GoType)
    (h : ∀ pt, scan pt avs = specScan pt avs) (i : Nat) (ins : List RValue) :
    resolve b avs ps i ins = specResolve b avs ps i ins := by
  induction ps generalizing i ins with
  | nil => rfl
  | cons pt rest ih =>
    unfold resolve specResolve
    rw [← h pt]
    cases scan pt avs with
    | found av => exact ih _ _
    | notFound =>
      cases b with
      | true => simpa using ih _ _
      | false => rfl
    | panic p => rfl

/-- The sequencing of the composed functions, case by case on the outcome of
the invocation. -/
theorem andExtractError_cases {σ : Type} (f : Target σ) (r : Run (Returned σ)) :
    (∀ outs e s', r = .ret (outs, some e, s') →
      andExtractError f r = .ret (none, some e, s')) ∧
    (∀ outs s', r = .ret (outs, none, s') →
      andExtractError f r = withState (ExtractError f outs) s') ∧
    (∀ p, r = .panic p → andExtractError f r = .panic p) := by
  refine ⟨?_, ?_, ?_⟩
  · intro outs e s' h
    rw [h]
    rfl
  · intro outs s' h
    rw [h]
    simp only [andExtractError, withState]
  · intro p h
    rw [h]
    rfl

/-- A result value surfaced as the error of a composed function comes from
`ExtractError`, run on the results of an invocation that returned a nil
error. -/
theorem andExtractError_ofValue {σ : Type} (b : Bool) (f : Target σ) (pool : List Any)
    (s s' : σ) (info : Slice) (v : Value)
    (h : andExtractError f (call b f pool s) = .ret (info, some (.ofValue v), s')) :
    ∃ outs, call b f pool s = .ret (outs, none, s') ∧
      ExtractError f outs = .ret (info, some (.ofValue v)) := by
  cases hc : call b f pool s with
  | panic p => simp [hc, andExtractError] at h
  | ret a =>
    obtain ⟨outs, err, s1⟩ := a
    cases err with
    | some e =>
      obtain ⟨_, he⟩ := call_error_shape b f pool s s1 outs e hc
      simp only [hc, andExtractError, Run.ret.injEq, Prod.mk.injEq, Option.some.injEq] at h
      rcases he with he | ⟨i, t, he⟩
      · rw [he] at h
        simp at h
      · rw [he] at h
        simp at h
    | none =>
      simp only [hc, andExtractError] at h
      cases hx : ExtractError f outs with
      | panic p => simp [hx] at h
      | ret x =>
        obtain ⟨info1, e1⟩ := x
        simp only [hx, Run.ret.injEq, Prod.mk.injEq] at h
        obtain ⟨h1, h2, h3⟩ := h
        subst h1 h2 h3
        exact ⟨outs, rfl, hx⟩

/-! ## What holds of the two modes and of shared first matches -/

/-- When every declared parameter has a matching candidate in the pool, the
two modes coincide: the loop over the parameters ends the same way in both,
`Call` and `CallOptional` have the same outcome (a panic included), and an
outcome that returns carries a nil error. -/
theorem modes_agree_of_allMatched {σ : Type} (fn : Func σ) (pool : List Any) (s : σ)
    (hm : AllMatched fn.typ.ins pool) :
    resolve false (pool.map reflectValueOf) fn.typ.ins 0
        (List.replicate fn.typ.ins.length RValue.invalid) =
      resolve true (pool.map reflectValueOf) fn.typ.ins 0
        (List.replicate fn.typ.ins.length RValue.invalid) ∧
    Call (.func fn) pool s = CallOptional (.func fn) pool s ∧
    (∀ outs err s', Call (.func fn) pool s = .ret (outs, err, s') → err = none) := by
  have hs := scan_ne_notFound_of_allMatched _ _ hm
  have hr := resolve_mode_irrelevant (pool.map reflectValueOf) fn.typ.ins hs 0
    (List.replicate fn.typ.ins.length RValue.invalid)
  refine ⟨hr, ?_, ?_⟩
  · simp only [Call, CallOptional, call, hr]
  · intro outs err s' h
    have hu := resolve_ne_unmatched false (pool.map reflectValueOf) fn.typ.ins hs 0
      (List.replicate fn.typ.ins.length RValue.invalid)
    simp only [Call, call] at h
    split at h
    · simp at h
    · rename_i i t hres
      exact absurd hres (hu i t)
    · split at h
      · simp at h
      · split at h
        · simp only [Run.ret.injEq, Prod.mk.injEq] at h
          exact h.2.1.symm
        · split at h
          · simp at h
          · simp only [Run.ret.injEq, Prod.mk.injEq] at h
            exact h.2.1.symm

/-- When the same candidate `c` is the first match in the pool for the
parameters `i` and `j` of a function that is not variadic, the slots `i` and `j`
of `boundVector` both hold `c`; whenever the loop over the parameters completes,
these are the slots of the vector it has built and the function is invoked on
that vector. The loop completes on every pool without nil candidates, in
lenient mode always and in strict mode when every parameter has a match. -/
theorem shared_first_match_slots {σ : Type} (fn : Func σ) (hv : fn.typ.variadic = none)
    (pool : List Any) (s : σ) (i j : Nat) (pi pj : GoType) (c : Any)
    (hi : fn.typ.ins[i]? = some pi) (hj : fn.typ.ins[j]? = some pj)
    (hci : firstMatch pi pool = some c) (hcj : firstMatch pj pool = some c) :
    (boundVector fn.typ.ins pool)[i]? = some (reflectValueOf c) ∧
    (boundVector fn.typ.ins pool)[j]? = some (reflectValueOf c) ∧
    (∀ b ins, resolve b (pool.map reflectValueOf) fn.typ.ins 0
        (List.replicate fn.typ.ins.length RValue.invalid) = .done ins →
      ins[i]? = some (reflectValueOf c) ∧ ins[j]? = some (reflectValueOf c) ∧
      call b (.func fn) pool s =
        .ret (resultSlice (fn.body s (assignAll ins fn.typ.ins)).1, none,
          (fn.body s (assignAll ins fn.typ.ins)).2)) ∧
    ((∀ a ∈ pool, a ≠ none) →
      resolve true (pool.map reflectValueOf) fn.typ.ins 0
          (List.replicate fn.typ.ins.length RValue.invalid) =
        .done (boundVector fn.typ.ins pool) ∧
      (AllMatched fn.typ.ins pool →
        resolve false (pool.map reflectValueOf) fn.typ.ins 0
            (List.replicate fn.typ.ins.length RValue.invalid) =
          .done (boundVector fn.typ.ins pool))) := by
  have hbi : (boundVector fn.typ.ins pool)[i]? = some (reflectValueOf c) := by
    simp [boundVector, List.getElem?_map, hi, hci]
  have hbj : (boundVector fn.typ.ins pool)[j]? = some (reflectValueOf c) := by
    simp [boundVector, List.getElem?_map, hj, hcj]
  refine ⟨hbi, hbj, ?_, ?_⟩
  · intro b ins hr
    obtain ⟨hb, hcall⟩ := call_of_resolve_done b fn hv pool s ins hr
    refine ⟨by rw [hb]; exact hbi, by rw [hb]; exact hbj, hcall⟩
  · intro hn
    have hl : resolve true (pool.map reflectValueOf) fn.typ.ins 0
        (List.replicate fn.typ.ins.length RValue.invalid) =
        .done (boundVector fn.typ.ins pool) := by
      simpa using resolve_lenient_of_no_nil pool hn fn.typ.ins []
    refine ⟨hl, fun hm => ?_⟩
    rw [resolve_mode_irrelevant _ _ (scan_ne_notFound_of_allMatched _ _ hm)]
    exact hl

/-- A variadic function: `func(xs ...int) {}` with a pool that holds an `[]int`
has its parameter matched, and `fv.Call` panics, because reflect takes the
matched value as one element of the slice to build; `func(xs ...interface{}) {}`
with an `[]interface{}` in the pool is invoked, on a slice that holds that
slice. -/
theorem variadic_cases :
    AllMatched fnVariadicInts.typ.ins [some ⟨intSliceType, .ref 1⟩] ∧
    Call (.func fnVariadicInts) [some ⟨intSliceType, .ref 1⟩] 0 =
      .panic .callVariadicNotAssignable ∧
    CallOptional (.func fnVariadicInts) [] 0 = .panic .callVariadicNotAssignable ∧
    Call (.func fnVariadicInts) [] 0 = .ret (none, some (.unmatched 0 "[]int"), 0) ∧
    Call (.func fnVariadicAny) [some ⟨anySliceType, .ref 1⟩] 0 = .ret (none, none, 1) := by
  refine ⟨?_, by decide, by decide, by decide, by decide⟩
  intro pt hpt
  have hpt' : pt = intSliceType := by simpa [fnVariadicInts] using hpt
  subst hpt'
  exact ⟨_, List.mem_cons_self _ _, by decide⟩

/-- The nil value of a function type passes the guard on the kind and goes
through the matching; when the matching completes, `fv.Call` panics. -/
theorem call_nilFunc_of_done {σ : Type} (b : Bool) (ft : FuncType) (pool : List Any) (s : σ)
    (ins : List RValue)
    (h : resolve b (pool.map reflectValueOf) ft.ins 0
      (List.replicate ft.ins.length RValue.invalid) = .done ins) :
    call b (Target.nilFunc ft) pool s = .panic .callNilFunction := by
  simp [call, h]

/-! ## The claims -/

/-- C1 (failing input). For `func(int) {}` and the pool `[nil, 1]` the declared
parameter has a matching candidate, the `int` value 1, which is also the first
match in pool order; the claim has `Call` return the results of the function on
it with a nil error. The call does not return: the scan reaches the nil
candidate first and `av.Type()` panics on the zero `reflect.Value`. -/
theorem C1_nil_candidate_before_match :
    AllMatched fnInt.typ.ins [none, some (intVal 1)] ∧
      firstMatch intType [none, some (intVal 1)] = some (some (intVal 1)) ∧
      Call (.func fnInt) [none, some (intVal 1)] 0 = .panic .typeOfZeroValue := by
  refine ⟨?_, by decide, by decide⟩
  intro pt hpt
  have hpt' : pt = intType := by simpa [fnInt] using hpt
  subst hpt'
  exact ⟨some (intVal 1), by simp, by decide⟩

/-- C2 (failing input). For `func(x int) (int, error)` and the pool `[nil]` the
declared parameter 0 has no matching candidate, so that the claim has strict
`Call` return a nil result and an error wrapping `ErrUnmatched` for position 0
and type `int`. The call panics on the nil candidate instead, and returns
nothing; on the empty pool it does return that error. -/
theorem C2_unmatched_with_nil_candidate :
    (∀ a ∈ [(none : Any)], candidateMatches intType a = false) ∧
      Call (.func fnIntId) [none] 0 = .panic .typeOfZeroValue ∧
      Call (.func fnIntId) [] 0 = .ret (none, some (.unmatched 0 "int"), 0) := by
  refine ⟨?_, by decide, by decide⟩
  intro a ha
  have ha' : a = none := by simpa using ha
  subst ha'
  rfl

/-- C3. Whenever strict `Call`, or `CallAndExtractError`, returns the error of
an unmatched parameter (whatever its position `i`), the target function has not
been invoked: the state after the call is the state before it, and the result
is nil. -/
theorem C3_unmatched_failure_does_not_invoke {σ : Type} (f : Target σ) (pool : List Any)
    (s s' : σ) (outs : Slice) (i : Nat) (t : String)
    (h : Call f pool s = .ret (outs, some (.unmatched i t), s') ∨
      CallAndExtractError f pool s = .ret (outs, some (.unmatched i t), s')) :
    s' = s ∧ outs = none := by
  rcases h with h | h
  · exact call_unmatched_state false f pool s s' outs i t h
  · unfold CallAndExtractError andExtractError at h
    split at h
    · simp at h
    · rename_i o err s1 hc
      split at h
      · simp only [Run.ret.injEq, Prod.mk.injEq, Option.some.injEq] at h
        obtain ⟨ho, he, hs⟩ := h
        subst he hs
        exact ⟨(call_unmatched_state false f pool s _ o i t hc).1, ho.symm⟩
      · split at h
        · simp at h
        · rename_i info e hx
          simp only [Run.ret.injEq, Prod.mk.injEq] at h
          obtain ⟨_, he, _⟩ := h
          subst he
          obtain ⟨v, hv⟩ := ExtractError_error_ofValue f o info _ hx
          simp at hv

/-- C3, on `func(int, string, float64) {}`: with the pools `["a"]`, `[1]` and
`[1, "a"]` the first, the middle and the last parameter is the unmatched one;
the invocation counter stays at 0. -/
theorem C3_unmatched_failure_does_not_invoke_witness :
    (Call (.func fnThree) [some (strVal "a")] 0 =
        .ret (none, some (.unmatched 0 "int"), 0) ∧ ((0 : Nat) = 0 ∧ (none : Slice) = none)) ∧
      (CallAndExtractError (.func fnThree) [some (intVal 1)] 0 =
        .ret (none, some (.unmatched 1 "string"), 0) ∧ ((0 : Nat) = 0 ∧ (none : Slice) = none)) ∧
      (Call (.func fnThree) [some (intVal 1), some (strVal "a")] 0 =
        .ret (none, some (.unmatched 2 "float64"), 0) ∧
          ((0 : Nat) = 0 ∧ (none : Slice) = none)) :=
  ⟨⟨by decide, C3_unmatched_failure_does_not_invoke (.func fnThree) [some (strVal "a")] 0 0
      none 0 "int" (Or.inl (by decide))⟩,
    ⟨by decide, C3_unmatched_failure_does_not_invoke (.func fnThree) [some (intVal 1)] 0 0
      none 1 "string" (Or.inr (by decide))⟩,
    ⟨by decide, C3_unmatched_failure_does_not_invoke (.func fnThree)
      [some (intVal 1), some (strVal "a")] 0 0 none 2 "float64" (Or.inl (by decide))⟩⟩

/-- C4 (failing input). For `func(x int) (int, error)` and the pool `[nil]` no
candidate matches the parameter, so that the claim has `CallOptional` invoke the
function with the vector `[0]` and return `(0, nil)`, as it does on the empty
pool. The call panics on the nil candidate instead, before any slot is filled
and without invoking the function. -/
theorem C4_lenient_with_nil_candidate :
    firstMatch intType [none] = none ∧
      boundVector fnIntId.typ.ins [none] = [.concrete (intVal 0)] ∧
      CallOptional (.func fnIntId) [none] 0 = .panic .typeOfZeroValue ∧
      CallOptional (.func fnIntId) [] 0 = .ret (some [some (intVal 0), none], none, 1) := by
  refine ⟨by decide, by decide, by decide, by decide⟩

/-- C5 (failing input). For `func(int) {}`, `CallOptional` does not proceed to
the invocation when the pool holds a nil candidate that the scan reaches: on
`[nil]` and on `[nil, 1]` it panics during matching, where the claim has it
return a nil error. -/
theorem C5_lenient_panics_on_nil_candidate :
    CallOptional (.func fnInt) [none] 0 = .panic .typeOfZeroValue ∧
      CallOptional (.func fnInt) [none, some (intVal 1)] 0 = .panic .typeOfZeroValue ∧
      CallOptional (.func fnInt) [some (intVal 1), none] 0 = .ret (none, none, 1) := by
  refine ⟨by decide, by decide, by decide⟩

/-- C6 (failing input). For `func(x int) (int, error)` and the pool `[nil, 7]`
every declared parameter has a match, so that the claim has `Call` and
`CallOptional` build the same vector and return the same results with a nil
error, as they do on `[7]`. Neither returns: in both modes the scan reaches
the nil candidate before the match and `av.Type()` panics on the zero
`reflect.Value`; no vector is built and the function is not invoked. -/
theorem C6_all_matched_with_nil_candidate :
    AllMatched fnIntId.typ.ins [none, some (intVal 7)] ∧
    Call (.func fnIntId) [none, some (intVal 7)] 0 = .panic .typeOfZeroValue ∧
    CallOptional (.func fnIntId) [none, some (intVal 7)] 0 = .panic .typeOfZeroValue ∧
    resolve false ([none, some (intVal 7)].map reflectValueOf) fnIntId.typ.ins 0
        (List.replicate fnIntId.typ.ins.length RValue.invalid) = .panic .typeOfZeroValue ∧
    resolve true ([none, some (intVal 7)].map reflectValueOf) fnIntId.typ.ins 0
        (List.replicate fnIntId.typ.ins.length RValue.invalid) = .panic .typeOfZeroValue ∧
    Call (.func fnIntId) [some (intVal 7)] 0 = .ret (some [some (intVal 7), none], none, 1) ∧
    CallOptional (.func fnIntId) [some (intVal 7)] 0 =
      .ret (some [some (intVal 7), none], none, 1) := by
  refine ⟨?_, by decide, by decide, by decide, by decide, by decide, by decide⟩
  intro pt hpt
  have hpt' : pt = intType := by simpa [fnIntId] using hpt
  subst hpt'
  exact ⟨some (intVal 7), by simp, by decide⟩

/-- C8 (failing input). For the untyped nil target, `reflect.TypeOf(f)` is the
nil `reflect.Type` and `ft.Kind()` panics: neither `Call` nor `CallOptional`
returns the not-callable error that the claim has them return, whereas for a
non-function value such as the `int` 3 they return it, with a nil result, the
state untouched, and an error that does not wrap `ErrUnmatched`. -/
theorem C8_nil_target_panics :
    Call (Target.nil : Target Nat) [] 0 = .panic .nilTypeDereference ∧
    CallOptional (Target.nil : Target Nat) [some (intVal 1)] 0 = .panic .nilTypeDereference ∧
    Call (Target.nonFunc (intVal 3) (by decide) : Target Nat) [none] 0 =
      .ret (none, some .notAFunc, 0) ∧
    GoError.wrapsErrUnmatched .notAFunc = some false := by
  refine ⟨rfl, rfl, rfl, rfl⟩

/-- C9 (counterexample). `func() error` has a failure-capable last return type
and `[42]` is a results sequence of the declared length whose last value is
not nil; `ExtractError` does not report that value as the error: the type
assertion `l.(error)` panics. -/
theorem C9_counterexample :
    fnErr.typ.outs.getLast? = some errorType ∧
    errorType.Implements errorType = true ∧
    Slice.len (some [some (intVal 42)]) = fnErr.typ.outs.length ∧
    ExtractError (.func fnErr) (some [some (intVal 42)]) = .panic .typeAssertion := by
  refine ⟨rfl, by decide, rfl, by decide⟩

/-- C9 (amended). For every function whose last declared return type implements
`error` and every results sequence of the declared length whose last value is
nil or a value implementing `error`, `ExtractError` returns; it reports no
error exactly when the last value of the results is nil, and otherwise reports
that last value itself as the error. -/
theorem C9_trailing_error {σ : Type} (fn : Func σ) (results : Slice) (lt : GoType)
    (hlt : fn.typ.outs.getLast? = some lt) (herr : lt.Implements errorType = true)
    (hlen : results.len = fn.typ.outs.length)
    (hty : ∀ v, results.index (results.len - 1) = .ret (some v) →
      v.typ.Implements errorType = true) :
    ∃ l info err, results.index (results.len - 1) = .ret l ∧
      ExtractError (.func fn) results = .ret (info, err) ∧
      (err = none ↔ l = none) ∧ (∀ v, l = some v → err = some (.ofValue v)) := by
  have hne : fn.typ.outs.length ≠ 0 := by
    intro h0
    rw [List.length_eq_zero] at h0
    simp [h0] at hlt
  obtain ⟨xs, l, rfl, hxs, hl, hidx⟩ := Slice.last_of_len results _ hne hlen
  have hty' : ∀ v, l = some v → v.typ.Implements errorType = true := by
    intro v hv
    apply hty v
    rw [hidx, hv]
  refine ⟨l, _, _, hidx, ExtractError_trailing fn xs lt l hlt herr hxs hl hty', ?_, ?_⟩
  · cases l <;> simp
  · intro v hv
    simp [hv]

/-- C9 (amended), on `func() error`: the results `[nil]` give no error, the
results `[errors.New("boom")]` give that value as the error. -/
theorem C9_trailing_error_witness :
    fnErr.typ.outs.getLast? = some errorType ∧
    errorType.Implements errorType = true ∧
    Slice.len (some [some (errVal "boom")]) = fnErr.typ.outs.length ∧
    errorStringType.Implements errorType = true ∧
    (∃ l info err, Slice.index (some [none]) (Slice.len (some [none]) - 1) = .ret l ∧
      ExtractError (.func fnErr) (some [none]) = .ret (info, err) ∧
      (err = none ↔ l = none) ∧ (∀ v, l = some v → err = some (.ofValue v))) ∧
    (∃ l info err, Slice.index (some [some (errVal "boom")])
        (Slice.len (some [some (errVal "boom")]) - 1) = .ret l ∧
      ExtractError (.func fnErr) (some [some (errVal "boom")]) = .ret (info, err) ∧
      (err = none ↔ l = none) ∧ (∀ v, l = some v → err = some (.ofValue v))) ∧
    ExtractError (.func fnErr) (some [some (errVal "boom")]) =
      .ret (some [], some (.ofValue (errVal "boom"))) :=
  ⟨rfl, by decide, rfl, by decide,
    C9_trailing_error fnErr (some [none]) errorType rfl (by decide) rfl
      (by intro v hv; simp [Slice.index, Slice.len] at hv),
    C9_trailing_error fnErr (some [some (errVal "boom")]) errorType rfl (by decide) rfl
      (by
        intro v hv
        have hv' : errVal "boom" = v := by simpa [Slice.index, Slice.len] using hv
        subst hv'
        decide),
    by decide⟩

/-- C10 (counterexample). `func() (int, error)` has a failure-capable last
return type and `[1, "x"]` is a results sequence of the declared length 2;
`ExtractError` returns no informational result for it: the type assertion on
the last value panics. -/
theorem C10_counterexample :
    fnIntErr.typ.outs.getLast? = some errorType ∧
    errorType.Implements errorType = true ∧
    Slice.len (some [some (intVal 1), some (strVal "x")]) = fnIntErr.typ.outs.length ∧
    ExtractError (.func fnIntErr) (some [some (intVal 1), some (strVal "x")]) =
      .panic .typeAssertion := by
  refine ⟨rfl, by decide, rfl, by decide⟩

/-- C10 (amended). For every function whose last declared return type
implements `error` and every results sequence of the declared length `n ≥ 1`
whose last value is nil or a value implementing `error`, the informational
result of `ExtractError` is exactly the first `n - 1` values of the results in
their order, whether or not the last value is nil; the values at the earlier
positions stay in it whatever they are, and the reported error is nil or the
last value, never an earlier one. -/
theorem C10_informational_result {σ : Type} (fn : Func σ) (results : Slice) (lt : GoType)
    (hlt : fn.typ.outs.getLast? = some lt) (herr : lt.Implements errorType = true)
    (hlen : results.len = fn.typ.outs.length)
    (hty : ∀ v, results.index (results.len - 1) = .ret (some v) →
      v.typ.Implements errorType = true) :
    ∃ xs info err, results = some xs ∧
      ExtractError (.func fn) results = .ret (some info, err) ∧
      info = xs.take (fn.typ.outs.length - 1) ∧
      info.length = fn.typ.outs.length - 1 ∧
      (∀ i, i < fn.typ.outs.length - 1 → info[i]? = xs[i]?) ∧
      (err = none ∨ ∃ v, results.index (results.len - 1) = .ret (some v) ∧
        err = some (.ofValue v)) := by
  have hne : fn.typ.outs.length ≠ 0 := by
    intro h0
    rw [List.length_eq_zero] at h0
    simp [h0] at hlt
  obtain ⟨xs, l, rfl, hxs, hl, hidx⟩ := Slice.last_of_len results _ hne hlen
  have hty' : ∀ v, l = some v → v.typ.Implements errorType = true := by
    intro v hv
    apply hty v
    rw [hidx, hv]
  refine ⟨xs, _, _, rfl, ExtractError_trailing fn xs lt l hlt herr hxs hl hty', ?_, ?_, ?_, ?_⟩
  · rw [hxs]
  · rw [List.length_take, hxs]
    omega
  · intro i hi
    rw [List.getElem?_take]
    simp only [ite_eq_left_iff, not_lt]
    intro h
    omega
  · cases l with
    | none => exact Or.inl rfl
    | some v => exact Or.inr ⟨v, hidx, rfl⟩

/-- C10 (amended), on `func() (error, error)` with the results `[e1, e2]`: the
informational result is `[e1]` and the error is `e2`. -/
theorem C10_informational_result_witness :
    fnErrErr.typ.outs.getLast? = some errorType ∧
    errorType.Implements errorType = true ∧
    Slice.len (some [some (errVal "e1"), some (errVal "e2")]) = fnErrErr.typ.outs.length ∧
    errorStringType.Implements errorType = true ∧
    (∃ xs info err, (some [some (errVal "e1"), some (errVal "e2")] : Slice) = some xs ∧
      ExtractError (.func fnErrErr) (some [some (errVal "e1"), some (errVal "e2")]) =
        .ret (some info, err) ∧
      info = xs.take (fnErrErr.typ.outs.length - 1) ∧
      info.length = fnErrErr.typ.outs.length - 1 ∧
      (∀ i, i < fnErrErr.typ.outs.length - 1 → info[i]? = xs[i]?) ∧
      (err = none ∨ ∃ v, Slice.index (some [some (errVal "e1"), some (errVal "e2")])
          (Slice.len (some [some (errVal "e1"), some (errVal "e2")]) - 1) = .ret (some v) ∧
        err = some (.ofValue v))) ∧
    ExtractError (.func fnErrErr) (some [some (errVal "e1"), some (errVal "e2")]) =
      .ret (some [some (errVal "e1")], some (.ofValue (errVal "e2"))) :=
  ⟨rfl, by decide, rfl, by decide,
    C10_informational_result fnErrErr (some [some (errVal "e1"), some (errVal "e2")]) errorType
      rfl (by decide) rfl
      (by
        intro v hv
        have hv' : errVal "e2" = v := by simpa [Slice.index, Slice.len] using hv
        subst hv'
        decide),
    by decide⟩

/-- C11. For every function whose last declared return type does not
implement `error` and every results sequence of the declared length,
`ExtractError` returns the results as they are (the same slice) with a nil
error, whatever the earlier declared return types are. -/
theorem C11_last_type_not_error {σ : Type} (fn : Func σ) (results : Slice) (lt : GoType)
    (hlt : fn.typ.outs.getLast? = some lt) (hno : lt.Implements errorType = false)
    (hlen : results.len = fn.typ.outs.length) :
    ExtractError (.func fn) results = .ret (results, none) := by
  have hne : fn.typ.outs.length ≠ 0 := by
    intro h0
    rw [List.length_eq_zero] at h0
    simp [h0] at hlt
  have hlt' : fn.typ.outs[fn.typ.outs.length - 1]? = some lt := by
    rw [← List.getLast?_eq_getElem?]
    exact hlt
  rw [ExtractError_func]
  unfold splitByType
  simp [hlen, hne, hlt', hno]

/-- C11, on `func() (error, string)` with the results `[e1, ""]`: the leading
error value stays where it is and no error is reported. -/
theorem C11_last_type_not_error_witness :
    fnErrStr.typ.outs.getLast? = some stringType ∧
    stringType.Implements errorType = false ∧
    Slice.len (some [some (errVal "e1"), some (strVal "")]) = fnErrStr.typ.outs.length ∧
    ExtractError (.func fnErrStr) (some [some (errVal "e1"), some (strVal "")]) =
      .ret (some [some (errVal "e1"), some (strVal "")], none) :=
  ⟨rfl, by decide, rfl,
    C11_last_type_not_error fnErrStr (some [some (errVal "e1"), some (strVal "")]) stringType
      rfl (by decide) rfl⟩

/-- C12. For every function and every results sequence whose length differs
from the declared return count, `ExtractError` panics with the length
mismatch: it returns neither a result nor an error, whatever the declared
return types are. -/
theorem C12_arity_mismatch_panics {σ : Type} (fn : Func σ) (results : Slice)
    (h : results.len ≠ fn.typ.outs.length) :
    ExtractError (.func fn) results = .panic .lenMismatch ∧
    ∀ r, ExtractError (.func fn) results ≠ .ret r := by
  have hp : ExtractError (.func fn) results = .panic .lenMismatch := by
    rw [ExtractError_func]
    unfold splitByType
    simp [Ne.symm h]
  exact ⟨hp, fun r hr => by rw [hp] at hr; simp at hr⟩

/-- C12, on `func() {}` with the results `[1]`, and on `func() (int, error)`
with the nil slice and with three values. -/
theorem C12_arity_mismatch_panics_witness :
    (Slice.len (some [some (intVal 1)]) ≠ fnEmpty.typ.outs.length ∧
      ExtractError (.func fnEmpty) (some [some (intVal 1)]) = .panic .lenMismatch ∧
      ∀ r, ExtractError (.func fnEmpty) (some [some (intVal 1)]) ≠ .ret r) ∧
    (Slice.len none ≠ fnIntErr.typ.outs.length ∧
      ExtractError (.func fnIntErr) none = .panic .lenMismatch ∧
      ∀ r, ExtractError (.func fnIntErr) none ≠ .ret r) ∧
    (Slice.len (some [some (intVal 1), none, none]) ≠ fnIntErr.typ.outs.length ∧
      ExtractError (.func fnIntErr) (some [some (intVal 1), none, none]) =
        .panic .lenMismatch ∧
      ∀ r, ExtractError (.func fnIntErr) (some [some (intVal 1), none, none]) ≠ .ret r) :=
  ⟨⟨by decide, C12_arity_mismatch_panics fnEmpty (some [some (intVal 1)]) (by decide)⟩,
    ⟨by decide, C12_arity_mismatch_panics fnIntErr none (by decide)⟩,
    ⟨by decide,
      C12_arity_mismatch_panics fnIntErr (some [some (intVal 1), none, none]) (by decide)⟩⟩

/-- C13. For every target and pool, `CallAndExtractError` is `Call` followed
by `ExtractError`: when `Call` returns an error it returns nil and exactly that
error, without running the split; when `Call` returns results with a nil error
it returns what `ExtractError` returns on them; a panic of `Call` is its panic.
The same holds for `CallOptionalAndExtractError` over `CallOptional`. Hence a
result value surfaced as the error comes from the split of an invocation that
returned a nil error. -/
theorem C13_composition {σ : Type} (f : Target σ) (pool : List Any) (s : σ) :
    ((∀ outs e s', Call f pool s = .ret (outs, some e, s') →
        CallAndExtractError f pool s = .ret (none, some e, s')) ∧
      (∀ outs s', Call f pool s = .ret (outs, none, s') →
        CallAndExtractError f pool s = withState (ExtractError f outs) s') ∧
      (∀ p, Call f pool s = .panic p → CallAndExtractError f pool s = .panic p) ∧
      (∀ info v s', CallAndExtractError f pool s = .ret (info, some (.ofValue v), s') →
        ∃ outs, Call f pool s = .ret (outs, none, s') ∧
          ExtractError f outs = .ret (info, some (.ofValue v)))) ∧
    ((∀ outs e s', CallOptional f pool s = .ret (outs, some e, s') →
        CallOptionalAndExtractError f pool s = .ret (none, some e, s')) ∧
      (∀ outs s', CallOptional f pool s = .ret (outs, none, s') →
        CallOptionalAndExtractError f pool s = withState (ExtractError f outs) s') ∧
      (∀ p, CallOptional f pool s = .panic p →
        CallOptionalAndExtractError f pool s = .panic p) ∧
      (∀ info v s',
        CallOptionalAndExtractError f pool s = .ret (info, some (.ofValue v), s') →
        ∃ outs, CallOptional f pool s = .ret (outs, none, s') ∧
          ExtractError f outs = .ret (info, some (.ofValue v)))) := by
  obtain ⟨a1, a2, a3⟩ := andExtractError_cases f (Call f pool s)
  obtain ⟨b1, b2, b3⟩ := andExtractError_cases f (CallOptional f pool s)
  exact ⟨⟨a1, a2, a3, fun info v s' h => andExtractError_ofValue false f pool s s' info v h⟩,
    ⟨b1, b2, b3, fun info v s' h => andExtractError_ofValue true f pool s s' info v h⟩⟩

/-- C13, on three runs: a strict call with an unmatched parameter (the error of
`Call` is returned as it is and the function is not invoked), a call whose
function returns a non-nil error (the split surfaces it), and a call on a
target that is not a function (the split, which would panic, is not run). -/
theorem C13_composition_witness :
    Call (.func fnIntId) [] 0 = .ret (none, some (.unmatched 0 "int"), 0) ∧
    CallAndExtractError (.func fnIntId) [] 0 = .ret (none, some (.unmatched 0 "int"), 0) ∧
    Call (.func fnFail) [] 0 = .ret (some [some (errVal "boom")], none, 1) ∧
    CallAndExtractError (.func fnFail) [] 0 =
      withState (ExtractError (.func fnFail) (some [some (errVal "boom")])) 1 ∧
    CallAndExtractError (.func fnFail) [] 0 =
      .ret (some [], some (.ofValue (errVal "boom")), 1) ∧
    ExtractError (Target.nonFunc (intVal 3) (by decide) : Target Nat) none =
      .panic .numOutOfNonFunc ∧
    CallOptionalAndExtractError (Target.nonFunc (intVal 3) (by decide) : Target Nat) [] 0 =
      .ret (none, some .notAFunc, 0) :=
  ⟨by decide,
    (C13_composition (.func fnIntId) [] 0).1.1 none (.unmatched 0 "int") 0 (by decide),
    by decide,
    (C13_composition (.func fnFail) [] 0).1.2.1 (some [some (errVal "boom")]) 1 (by decide),
    by decide, rfl,
    (C13_composition (Target.nonFunc (intVal 3) (by decide) : Target Nat) [] 0).2.1
      none .notAFunc 0 rfl⟩

/-- C14 (failing input). For `func(int) {}` the pools `[1, nil]` and `[nil, 1]`
are permutations of each other and the parameter is matched by one candidate
only; the claim has `Call` and `CallOptional` give the same outcome on both.
On `[1, nil]` the function is invoked; on `[nil, 1]` the scan reaches the nil
candidate first and panics. The claim's own example holds:
`func(a string, b int)` receives `a = "one"`, `b = 1` from `[1, "one"]` and from
`["one", 1]`. -/
theorem C14_permutation_with_nil_candidate :
    List.Perm [some (intVal 1), none] [none, some (intVal 1)] ∧
    (∀ pt ∈ fnInt.typ.ins,
      ([some (intVal 1), none].filter (candidateMatches pt)).length ≤ 1) ∧
    Call (.func fnInt) [some (intVal 1), none] 0 = .ret (none, none, 1) ∧
    Call (.func fnInt) [none, some (intVal 1)] 0 = .panic .typeOfZeroValue ∧
    CallOptional (.func fnInt) [some (intVal 1), none] 0 = .ret (none, none, 1) ∧
    CallOptional (.func fnInt) [none, some (intVal 1)] 0 = .panic .typeOfZeroValue ∧
    Call (.func fnMulti) [some (intVal 1), some (strVal "one")] 0 =
      .ret (some [some (intVal 2), some (strVal "one1")], none, 1) ∧
    Call (.func fnMulti) [some (strVal "one"), some (intVal 1)] 0 =
      .ret (some [some (intVal 2), some (strVal "one1")], none, 1) := by
  refine ⟨List.Perm.swap _ _ _, ?_, by decide, by decide, by decide, by decide, by decide,
    by decide⟩
  intro pt hpt
  have hpt' : pt = intType := by simpa [fnInt] using hpt
  subst hpt'
  decide

/-- C15 (failing input). The nil candidate matches none of the declared
parameter types of `func(int) {}`; the claim has its insertion leave the
outcome unchanged and cause no error. Inserted at the head of the pool `[1]`
it turns the successful call into a panic, in both modes; inserted at the
end it is harmless. -/
theorem C15_inserted_nil_candidate :
    (∀ pt ∈ fnInt.typ.ins, candidateMatches pt none = false) ∧
    Call (.func fnInt) [some (intVal 1)] 0 = .ret (none, none, 1) ∧
    Call (.func fnInt) ([] ++ none :: [some (intVal 1)]) 0 = .panic .typeOfZeroValue ∧
    CallOptional (.func fnInt) [some (intVal 1)] 0 = .ret (none, none, 1) ∧
    CallOptional (.func fnInt) ([] ++ none :: [some (intVal 1)]) 0 =
      .panic .typeOfZeroValue ∧
    Call (.func fnInt) ([some (intVal 1)] ++ none :: []) 0 = .ret (none, none, 1) := by
  refine ⟨fun pt _ => rfl, by decide, by decide, by decide, by decide, by decide⟩

/-- C16. The test the code applies (implements, when the declared type is an
interface; identical, otherwise) and the disjunction of the specification
(interface and implements, OR identical) accept the same pairs of a candidate
with a concrete runtime type and a parameter type. Hence, on every pool of
such candidates, each scan and the whole loop over the parameters end the same
way with either test: the same resolved vector, the same unmatched parameter. -/
theorem C16_match_test_refines_specification :
    (∀ (pt : GoType) (v : Value), v.typ.kind ≠ .Interface →
      (matchesParam pt v = true ↔ specMatches pt v.typ = true)) ∧
    (∀ (pool : List Any), (∀ v, some v ∈ pool → v.typ.kind ≠ .Interface) →
      (∀ pt, scan pt (pool.map reflectValueOf) = specScan pt (pool.map reflectValueOf)) ∧
      (∀ b ps i ins, resolve b (pool.map reflectValueOf) ps i ins =
        specResolve b (pool.map reflectValueOf) ps i ins)) := by
  refine ⟨fun pt v hc => by rw [matchesParam_eq_specMatches pt v hc], ?_⟩
  intro pool hc
  have hs := fun pt => scan_eq_specScan pt pool hc
  exact ⟨hs, fun b ps i ins => resolve_eq_specResolve b _ ps hs i ins⟩

/-- C16, on `func(c context.Context, s fmt.Stringer)` and a pool of an `int`
and a `context.Background()`: both tests accept the context value for the
interface parameter and reject the `int`, and both loops bind the two
parameters to it. -/
theorem C16_match_test_refines_specification_witness :
    backgroundCtx.typ.kind ≠ .Interface ∧
    (matchesParam contextType backgroundCtx = true ↔
      specMatches contextType backgroundCtx.typ = true) ∧
    matchesParam contextType backgroundCtx = true ∧
    matchesParam contextType (intVal 1) = false ∧
    specMatches contextType intType = false ∧
    specResolve false ([some (intVal 1), some backgroundCtx].map reflectValueOf)
        fnCtxStringer.typ.ins 0 (List.replicate 2 RValue.invalid) =
      .done [.concrete backgroundCtx, .concrete backgroundCtx] ∧
    resolve false ([some (intVal 1), some backgroundCtx].map reflectValueOf)
        fnCtxStringer.typ.ins 0 (List.replicate 2 RValue.invalid) =
      specResolve false ([some (intVal 1), some backgroundCtx].map reflectValueOf)
        fnCtxStringer.typ.ins 0 (List.replicate 2 RValue.invalid) :=
  ⟨by decide, C16_match_test_refines_specification.1 contextType backgroundCtx (by decide),
    by decide, by decide, by decide, by decide,
    (C16_match_test_refines_specification.2 [some (intVal 1), some backgroundCtx]
      (by
        intro v hv
        simp only [List.mem_cons, Option.some.injEq, List.mem_singleton, List.not_mem_nil,
          or_false] at hv
        rcases hv with rfl | rfl <;> decide)).2 false _ 0 _⟩

/-- C17 (failing input). For `func(a, b int) (int, int)` and the pool
`[nil, 1, 2]` the candidate 1 is the first match of both parameters, so that
the claim has both of them bound to it, as they are on `[1, 2]`, where the
function receives `(1, 1)`. On `[nil, 1, 2]` no parameter is bound: in both
modes the scan for the first parameter reaches the nil candidate before the
match and `av.Type()` panics on the zero `reflect.Value`; the loop over the
parameters builds no vector and the function is not invoked. -/
theorem C17_shared_first_match_behind_nil :
    fnPair.typ.ins[0]? = some intType ∧ fnPair.typ.ins[1]? = some intType ∧
    firstMatch intType [none, some (intVal 1), some (intVal 2)] = some (some (intVal 1)) ∧
    resolve false ([none, some (intVal 1), some (intVal 2)].map reflectValueOf)
        fnPair.typ.ins 0 (List.replicate fnPair.typ.ins.length RValue.invalid) =
      .panic .typeOfZeroValue ∧
    resolve true ([none, some (intVal 1), some (intVal 2)].map reflectValueOf)
        fnPair.typ.ins 0 (List.replicate fnPair.typ.ins.length RValue.invalid) =
      .panic .typeOfZeroValue ∧
    Call (.func fnPair) [none, some (intVal 1), some (intVal 2)] 0 =
      .panic .typeOfZeroValue ∧
    CallOptional (.func fnPair) [none, some (intVal 1), some (intVal 2)] 0 =
      .panic .typeOfZeroValue ∧
    resolve false ([some (intVal 1), some (intVal 2)].map reflectValueOf)
        fnPair.typ.ins 0 (List.replicate fnPair.typ.ins.length RValue.invalid) =
      .done [.concrete (intVal 1), .concrete (intVal 1)] ∧
    Call (.func fnPair) [some (intVal 1), some (intVal 2)] 0 =
      .ret (some [some (intVal 1), some (intVal 1)], none, 1) := by
  refine ⟨rfl, rfl, by decide, by decide, by decide, by decide, by decide, by decide,
    by decide⟩

/-- C18 (counterexample). `func() (string, error, error)` declares three return
values and `["", e1, 42]` has that length; `ExtractError` does not return
normally on it: the trailing value is a non-nil `int`, and the type assertion
`l.(error)` panics. -/
theorem C18_counterexample :
    Slice.len (some [some (strVal ""), some (errVal "e1"), some (intVal 42)]) =
      fnStrErrErr.typ.outs.length ∧
    ExtractError (.func fnStrErrErr)
        (some [some (strVal ""), some (errVal "e1"), some (intVal 42)]) =
      .panic .typeAssertion ∧
    ∀ r, ExtractError (.func fnStrErrErr)
        (some [some (strVal ""), some (errVal "e1"), some (intVal 42)]) ≠ .ret r := by
  refine ⟨rfl, by decide, ?_⟩
  intro r hr
  have hp : ExtractError (.func fnStrErrErr)
      (some [some (strVal ""), some (errVal "e1"), some (intVal 42)]) =
      .panic .typeAssertion := by decide
  rw [hp] at hr
  simp at hr

/-- C18 (amended). The splitter has two preconditions, the arity and the type
of the trailing value: for every function and every results sequence whose
length equals the declared return count and whose last value, when the last
declared return type implements `error`, is nil or a value implementing
`error` (whatever the runtime types of the other values), `ExtractError`
returns normally with an informational result and an error-or-nil. When the
last declared type implements `error` and the last value is a non-nil value
that does not, it panics. -/
theorem C18_split_returns {σ : Type} (fn : Func σ) (results : Slice)
    (hlen : results.len = fn.typ.outs.length) :
    ((∀ lt v, fn.typ.outs.getLast? = some lt → lt.Implements errorType = true →
        results.index (results.len - 1) = .ret (some v) →
        v.typ.Implements errorType = true) →
      ∃ info err, ExtractError (.func fn) results = .ret (info, err)) ∧
    (∀ lt v, fn.typ.outs.getLast? = some lt → lt.Implements errorType = true →
        results.index (results.len - 1) = .ret (some v) →
        v.typ.Implements errorType = false →
      ExtractError (.func fn) results = .panic .typeAssertion) := by
  refine ⟨ExtractError_returns fn results hlen, ?_⟩
  intro lt v hlt herr hidx hv
  have hne : fn.typ.outs.length ≠ 0 := by
    intro h0
    rw [List.length_eq_zero] at h0
    simp [h0] at hlt
  obtain ⟨xs, l, rfl, hxs, hlast, hidx'⟩ := Slice.last_of_len results _ hne hlen
  rw [hidx'] at hidx
  simp only [Run.ret.injEq] at hidx
  subst hidx
  exact ExtractError_trailing_not_error fn xs lt v hlt herr hxs hlast hv

/-- C18 (amended), on `func() (string, error, error)`: the results
`[7, 42, e2]`, whose first two values are not of the declared types, are split
into `[7, 42]` and the error `e2`. -/
theorem C18_split_returns_witness :
    Slice.len (some [some (intVal 7), some (intVal 42), some (errVal "e2")]) =
      fnStrErrErr.typ.outs.length ∧
    (∃ info err, ExtractError (.func fnStrErrErr)
      (some [some (intVal 7), some (intVal 42), some (errVal "e2")]) = .ret (info, err)) ∧
    ExtractError (.func fnStrErrErr)
        (some [some (intVal 7), some (intVal 42), some (errVal "e2")]) =
      .ret (some [some (intVal 7), some (intVal 42)], some (.ofValue (errVal "e2"))) :=
  ⟨rfl,
    (C18_split_returns fnStrErrErr
      (some [some (intVal 7), some (intVal 42), some (errVal "e2")]) rfl).1
      (by
        intro lt v _ _ hv
        have hv' : errVal "e2" = v := by simpa [Slice.index, Slice.len] using hv
        subst hv'
        decide),
    by decide⟩

/-- C19. Whenever `Call` (resp. `CallOptional`) on a function returns results
with a nil error, the results have the declared length (the nil slice when it
is zero) and, when the last declared return type implements `error`, their last
value is nil or a value implementing `error`; therefore `ExtractError` returns
on them, and `CallAndExtractError` (resp. `CallOptionalAndExtractError`)
returns what it returns: neither the length-mismatch panic nor a failing type
assertion occurs. -/
theorem C19_composed_calls_do_not_trip_the_split {σ : Type} (fn : Func σ)
    (pool : List Any) (s : σ) :
    (∀ outs s', Call (.func fn) pool s = .ret (outs, none, s') →
      outs.len = fn.typ.outs.length ∧
      (fn.typ.outs.length = 0 → outs = none) ∧
      (∀ lt v, fn.typ.outs.getLast? = some lt → lt.Implements errorType = true →
        outs.index (outs.len - 1) = .ret (some v) → v.typ.Implements errorType = true) ∧
      ∃ info err, ExtractError (.func fn) outs = .ret (info, err) ∧
        CallAndExtractError (.func fn) pool s = .ret (info, err, s')) ∧
    (∀ outs s', CallOptional (.func fn) pool s = .ret (outs, none, s') →
      outs.len = fn.typ.outs.length ∧
      (fn.typ.outs.length = 0 → outs = none) ∧
      (∀ lt v, fn.typ.outs.getLast? = some lt → lt.Implements errorType = true →
        outs.index (outs.len - 1) = .ret (some v) → v.typ.Implements errorType = true) ∧
      ∃ info err, ExtractError (.func fn) outs = .ret (info, err) ∧
        CallOptionalAndExtractError (.func fn) pool s = .ret (info, err, s')) := by
  have key : ∀ b outs s', call b (.func fn) pool s = .ret (outs, none, s') →
      outs.len = fn.typ.outs.length ∧
      (fn.typ.outs.length = 0 → outs = none) ∧
      (∀ lt v, fn.typ.outs.getLast? = some lt → lt.Implements errorType = true →
        outs.index (outs.len - 1) = .ret (some v) → v.typ.Implements errorType = true) ∧
      ∃ info err, ExtractError (.func fn) outs = .ret (info, err) ∧
        andExtractError (.func fn) (call b (.func fn) pool s) = .ret (info, err, s') := by
    intro b outs s' h
    obtain ⟨h1, h2, h3⟩ := call_results_typed b fn pool s s' outs h
    obtain ⟨info, err, hx⟩ := ExtractError_returns fn outs h1 h3
    refine ⟨h1, h2, h3, info, err, hx, ?_⟩
    rw [h]
    simp [andExtractError, hx]
  exact ⟨key false, key true⟩

/-- C19, on `func() error { return errors.New("boom") }` and on
`func(x int) (int, error) { return x, nil }` with the pool `[5]`. -/
theorem C19_composed_calls_do_not_trip_the_split_witness :
    Call (.func fnFail) [] 0 = .ret (some [some (errVal "boom")], none, 1) ∧
    CallAndExtractError (.func fnFail) [] 0 =
      .ret (some [], some (.ofValue (errVal "boom")), 1) ∧
    CallOptionalAndExtractError (.func fnIntId) [some (intVal 5)] 0 =
      .ret (some [some (intVal 5)], none, 1) ∧
    (∃ info err, ExtractError (.func fnFail) (some [some (errVal "boom")]) =
        .ret (info, err) ∧
      CallAndExtractError (.func fnFail) [] 0 = .ret (info, err, 1)) :=
  ⟨by decide, by decide, by decide,
    ((C19_composed_calls_do_not_trip_the_split fnFail [] 0).1
      (some [some (errVal "boom")]) 1 (by decide)).2.2.2⟩

/-- C20. A candidate `v` whose runtime type is that of an earlier candidate `u`
of the pool is dead. The scan for any parameter that `v` would match stops
before reaching it (it ends inside the part of the pool that precedes `v`, and
not with "not found"), so `v` is bound to no parameter; and removing `v` from
the pool changes neither a scan, nor the loop over the parameters (the resolved
vector), nor the outcome of `Call` and of `CallOptional`. -/
theorem C20_later_duplicate_is_dead {σ : Type} (fn : Func σ) (pre post : List Any)
    (u v : Value) (s : σ) (hu : some u ∈ pre) (ht : u.typ = v.typ) :
    (∀ pt, matchesParam pt v = true →
      scan pt ((pre ++ some v :: post).map reflectValueOf) =
        scan pt (pre.map reflectValueOf) ∧
      scan pt (pre.map reflectValueOf) ≠ .notFound) ∧
    (∀ pt, scan pt ((pre ++ some v :: post).map reflectValueOf) =
      scan pt ((pre ++ post).map reflectValueOf)) ∧
    (∀ b i ins, resolve b ((pre ++ some v :: post).map reflectValueOf) fn.typ.ins i ins =
      resolve b ((pre ++ post).map reflectValueOf) fn.typ.ins i ins) ∧
    Call (.func fn) (pre ++ some v :: post) s = Call (.func fn) (pre ++ post) s ∧
    CallOptional (.func fn) (pre ++ some v :: post) s =
      CallOptional (.func fn) (pre ++ post) s := by
  have hs := fun pt => scan_remove_duplicate pt pre post u v hu ht
  refine ⟨?_, hs, ?_, ?_, ?_⟩
  · intro pt hm
    have hstop : scan pt (pre.map reflectValueOf) ≠ .notFound :=
      scan_ne_notFound pt pre
        ⟨some u, hu, by simpa [candidateMatches, matchesParam_of_typ_eq pt u v ht] using hm⟩
    exact ⟨scan_append_of_stop pt pre _ hstop, hstop⟩
  · intro b i ins
    exact resolve_congr b _ _ fn.typ.ins (fun pt _ => hs pt) i ins
  · exact call_congr false fn _ _ s (fun pt _ => hs pt)
  · exact call_congr true fn _ _ s (fun pt _ => hs pt)

/-- C20, on `func(a, b int) (int, int) { return a, b }`: in the pool
`["a", 1, 2]` the candidate 2 has the type of the earlier candidate 1; with and
without it the function receives `(1, 1)`. -/
theorem C20_later_duplicate_is_dead_witness :
    some (intVal 1) ∈ [some (strVal "a"), some (intVal 1)] ∧
    (intVal 1).typ = (intVal 2).typ ∧
    Call (.func fnPair) ([some (strVal "a"), some (intVal 1)] ++ some (intVal 2) :: []) 0 =
      .ret (some [some (intVal 1), some (intVal 1)], none, 1) ∧
    Call (.func fnPair) ([some (strVal "a"), some (intVal 1)] ++ some (intVal 2) :: []) 0 =
      Call (.func fnPair) ([some (strVal "a"), some (intVal 1)] ++ []) 0 :=
  ⟨by decide, rfl, by decide,
    (C20_later_duplicate_is_dead fnPair [some (strVal "a"), some (intVal 1)] []
      (intVal 1) (intVal 2) 0 (by decide) rfl).2.2.2.1⟩

end Flexcall
